import Mathlib

/-!
Verification of the incremental synchronization core of the Civitai image
sync scripts (sync_and_report.py and the downloader variants).

The Python source is shallowly embedded: Python dicts become association
lists built with an insert-or-replace operation (preserving Python dict
insertion-order semantics, later assignment wins), fallible operations
return Option or Except, the remote API and the clock are passed in as
explicit inputs, and the JSON (de)serialization performed by json.dump
with indent 4 and json.load in save_manifest and load_manifest is embedded
as an executable serializer and parser over a JSON value tree.
-/

namespace CivitaiSync

/-- ImageRecord as handled by sync_and_report.py: a remote item dict.
Fields id, url, username may be absent (Python dict.get returns None),
and the remaining remote metadata is an opaque pass-through bag. -/
structure ImageInfo where
  id : Option Int
  url : Option String
  username : Option String
  extra : List (String × String)
deriving DecidableEq

/-- Python dict assignment d[k] = v on an insertion-ordered dict:
replace in place when the key is present, else append. -/
def dictInsert {α : Type} (k : String) (v : α) : List (String × α) → List (String × α)
  | [] => [(k, v)]
  | (k₁, v₁) :: rest => if k₁ = k then (k, v) :: rest else (k₁, v₁) :: dictInsert k v rest

/-- Python dict built from a sequence of key-value pairs (dict comprehension
semantics: pairs inserted in order, a later duplicate key overwrites). -/
def dictOfList {α : Type} (l : List (String × α)) : List (String × α) :=
  l.foldl (fun acc kv => dictInsert kv.1 kv.2 acc) []

/-- Python dict.keys() as a list (insertion order). -/
def dictKeys {α : Type} (m : List (String × α)) : List String := m.map Prod.fst

/-- Python subscript d[k], with none modelling a KeyError. -/
def dictGet {α : Type} (k : String) : List (String × α) → Option α
  | [] => none
  | (k₁, v₁) :: rest => if k₁ = k then some v₁ else dictGet k rest

theorem dictInsert_cons {α : Type} (k k₁ : String) (v v₁ : α) (tl : List (String × α)) :
    dictInsert k v ((k₁, v₁) :: tl) =
      if k₁ = k then (k, v) :: tl else (k₁, v₁) :: dictInsert k v tl := rfl

theorem dictGet_cons {α : Type} (k k₁ : String) (v₁ : α) (tl : List (String × α)) :
    dictGet k ((k₁, v₁) :: tl) = if k₁ = k then some v₁ else dictGet k tl := rfl

theorem mem_dictKeys_dictInsert {α : Type} (k k₁ : String) (v : α) (m : List (String × α)) :
    k₁ ∈ dictKeys (dictInsert k v m) ↔ k₁ = k ∨ k₁ ∈ dictKeys m := by
  induction m with
  | nil => simp [dictInsert, dictKeys]
  | cons hd tl ih =>
    obtain ⟨k₂, v₂⟩ := hd
    by_cases h : k₂ = k
    · rw [dictInsert_cons, if_pos h]
      simp only [dictKeys, List.map_cons, List.mem_cons]
      constructor
      · rintro (h1 | h1)
        · exact Or.inl h1
        · exact Or.inr (Or.inr h1)
      · rintro (h1 | h1 | h1)
        · exact Or.inl h1
        · exact Or.inl (h ▸ h1)
        · exact Or.inr h1
    · rw [dictInsert_cons, if_neg h]
      simp only [dictKeys, List.map_cons, List.mem_cons] at ih ⊢
      rw [ih]
      tauto

theorem nodup_dictKeys_dictInsert {α : Type} (k : String) (v : α) (m : List (String × α))
    (h : (dictKeys m).Nodup) : (dictKeys (dictInsert k v m)).Nodup := by
  induction m with
  | nil => simp [dictInsert, dictKeys]
  | cons hd tl ih =>
    obtain ⟨k₂, v₂⟩ := hd
    simp only [dictKeys, List.map_cons, List.nodup_cons] at h
    by_cases hk : k₂ = k
    · rw [dictInsert_cons, if_pos hk]
      simp only [dictKeys, List.map_cons, List.nodup_cons]
      exact ⟨fun hmem => h.1 (hk.symm ▸ hmem), h.2⟩
    · rw [dictInsert_cons, if_neg hk]
      simp only [dictKeys, List.map_cons, List.nodup_cons]
      refine ⟨?_, ih h.2⟩
      intro hmem
      rw [show (dictInsert k v tl).map Prod.fst = dictKeys (dictInsert k v tl) from rfl,
        mem_dictKeys_dictInsert] at hmem
      rcases hmem with h1 | h2
      · exact hk h1
      · exact h.1 h2

theorem nodup_dictKeys_foldl {α : Type} (l : List (String × α)) (acc : List (String × α))
    (hacc : (dictKeys acc).Nodup) :
    (dictKeys (l.foldl (fun acc kv => dictInsert kv.1 kv.2 acc) acc)).Nodup := by
  induction l generalizing acc with
  | nil => simpa using hacc
  | cons hd tl ih =>
    simp only [List.foldl_cons]
    exact ih _ (nodup_dictKeys_dictInsert hd.1 hd.2 acc hacc)

/-- Keys of a Python dict are always without duplicates. -/
theorem nodup_dictKeys_dictOfList {α : Type} (l : List (String × α)) :
    (dictKeys (dictOfList l)).Nodup :=
  nodup_dictKeys_foldl l [] (by simp [dictKeys])

theorem dictGet_eq_some_iff {α : Type} {m : List (String × α)} (hnd : (dictKeys m).Nodup)
    (k : String) (v : α) : dictGet k m = some v ↔ (k, v) ∈ m := by
  induction m with
  | nil => simp [dictGet]
  | cons hd tl ih =>
    obtain ⟨k₁, v₁⟩ := hd
    simp only [dictKeys, List.map_cons, List.nodup_cons] at hnd
    rw [dictGet_cons]
    by_cases h : k₁ = k
    · rw [if_pos h]
      simp only [List.mem_cons, Option.some.injEq, Prod.mk.injEq]
      constructor
      · rintro rfl
        exact Or.inl ⟨h.symm, rfl⟩
      · rintro (⟨-, rfl⟩ | hmem)
        · rfl
        · exact absurd (h.symm ▸ List.mem_map_of_mem Prod.fst hmem) hnd.1
    · rw [if_neg h]
      simp only [List.mem_cons, Prod.mk.injEq]
      rw [ih hnd.2]
      constructor
      · exact Or.inr
      · rintro (⟨h1, -⟩ | hmem)
        · exact absurd h1.symm h
        · exact hmem

theorem mem_of_dictGet_eq_some {α : Type} {m : List (String × α)} {k : String} {v : α}
    (h : dictGet k m = some v) : (k, v) ∈ m := by
  induction m with
  | nil => simp [dictGet] at h
  | cons hd tl ih =>
    obtain ⟨k₁, v₁⟩ := hd
    rw [dictGet_cons] at h
    by_cases hk : k₁ = k
    · rw [if_pos hk] at h
      rw [Option.some.injEq] at h
      rw [← h, ← hk]
      exact List.mem_cons_self _ _
    · rw [if_neg hk] at h
      exact List.mem_cons_of_mem _ (ih h)

/-- Diff Engine, sync_and_report.py line 180: the Python set difference
current_image_ids - old_image_ids realised over the key lists of the two
dicts (a filter keeping ids absent from the manifest). -/
def new_image_ids {α β : Type} (cur : List (String × α)) (old : List (String × β)) :
    List String :=
  (dictKeys cur).filter (fun i => decide (i ∉ dictKeys old))

/-- Diff Engine, sync_and_report.py line 181: old_image_ids - current_image_ids. -/
def deleted_image_ids {α β : Type} (cur : List (String × α)) (old : List (String × β)) :
    List String :=
  (dictKeys old).filter (fun i => decide (i ∉ dictKeys cur))

/-- sync_and_report.py line 183: new_images pulls each added id from
current_images_map. -/
def new_images {α β : Type} (cur : List (String × α)) (old : List (String × β)) : List α :=
  (new_image_ids cur old).filterMap (fun i => dictGet i cur)

/-- sync_and_report.py line 184: deleted_images_data pulls each removed id
from the stored manifest (the only remaining copy). -/
def deleted_images_data {α β : Type} (cur : List (String × α)) (old : List (String × β)) :
    List β :=
  (deleted_image_ids cur old).filterMap (fun i => dictGet i old)

/-- sync_and_report.py line 175: current_images_map keyed by str(img[.id.]),
with none modelling the KeyError raised when a record lacks an id. -/
def current_images_map (imgs : List ImageInfo) : Option (List (String × ImageInfo)) :=
  (imgs.mapM (fun (img : ImageInfo) =>
    (img.id.map (fun n => (toString n, img)) : Option (String × ImageInfo)))).map dictOfList

/-- Outcome of one sync pass: the diff, whether the download branch and the
archive step run (sync_and_report.py lines 196-219, both inside the same
if new_images: branch), and the manifest handed to save_manifest (line 230). -/
structure SyncResult where
  newImages : List ImageInfo
  deletedData : List ImageInfo
  downloadsStarted : Bool
  archiveCreated : Bool
  savedManifest : List (String × ImageInfo)
deriving DecidableEq

/-- Pure core of main (sync_and_report.py lines 164-230): build the current
map, diff against the loaded manifest, decide the download/archive branch,
and save the full current map wholesale. -/
def syncRun (old : List (String × ImageInfo)) (fetched : List ImageInfo) :
    Option SyncResult := do
  let cur ← current_images_map fetched
  let ni := new_images cur old
  let dd := deleted_images_data cur old
  some { newImages := ni, deletedData := dd,
         downloadsStarted := !ni.isEmpty, archiveCreated := !ni.isEmpty,
         savedManifest := cur }

theorem filterMap_dictGet_self {α : Type} (m : List (String × α))
    (hnd : (dictKeys m).Nodup) :
    (dictKeys m).filterMap (fun i => dictGet i m) = m.map Prod.snd := by
  induction m with
  | nil => rfl
  | cons hd tl ih =>
    obtain ⟨k, v⟩ := hd
    simp only [dictKeys, List.map_cons, List.nodup_cons] at hnd
    simp only [dictKeys] at ih
    have hget : dictGet k ((k, v) :: tl) = some v := by
      rw [dictGet_cons, if_pos rfl]
    have hcongr : (tl.map Prod.fst).filterMap (fun i => dictGet i ((k, v) :: tl))
        = (tl.map Prod.fst).filterMap (fun i => dictGet i tl) := by
      apply List.filterMap_congr
      intro i hi
      have hne : k ≠ i := fun h => hnd.1 (h.symm ▸ hi)
      rw [dictGet_cons, if_neg hne]
    show (k :: tl.map Prod.fst).filterMap (fun i => dictGet i ((k, v) :: tl))
        = v :: tl.map Prod.snd
    simp only [List.filterMap_cons, hget]
    rw [hcongr, ih hnd.2]

/-- C1: added is exactly the current records whose ids are absent from the
manifest, removed is exactly the manifest records whose ids are absent from
the current map, and an empty prior manifest gives an empty removed set and
an added set equal to the full current collection. -/
theorem c1_diff_engine_correct (old cur : List (String × ImageInfo))
    (hcur : (dictKeys cur).Nodup) (hold : (dictKeys old).Nodup) :
    (∀ r, r ∈ new_images cur old ↔ ∃ k, (k, r) ∈ cur ∧ k ∉ dictKeys old) ∧
    (∀ r, r ∈ deleted_images_data cur old ↔ ∃ k, (k, r) ∈ old ∧ k ∉ dictKeys cur) ∧
    (old = [] → deleted_images_data cur old = [] ∧
      new_images cur old = cur.map Prod.snd) := by
  refine ⟨?_, ?_, ?_⟩
  · intro r
    simp only [new_images, new_image_ids, List.mem_filterMap, List.mem_filter,
      decide_eq_true_eq]
    constructor
    · rintro ⟨k, ⟨-, hnotold⟩, hget⟩
      exact ⟨k, mem_of_dictGet_eq_some hget, hnotold⟩
    · rintro ⟨k, hmem, hnotold⟩
      refine ⟨k, ⟨List.mem_map_of_mem Prod.fst hmem, hnotold⟩, ?_⟩
      exact (dictGet_eq_some_iff hcur k r).mpr hmem
  · intro r
    simp only [deleted_images_data, deleted_image_ids, List.mem_filterMap, List.mem_filter,
      decide_eq_true_eq]
    constructor
    · rintro ⟨k, ⟨-, hnotcur⟩, hget⟩
      exact ⟨k, mem_of_dictGet_eq_some hget, hnotcur⟩
    · rintro ⟨k, hmem, hnotcur⟩
      refine ⟨k, ⟨List.mem_map_of_mem Prod.fst hmem, hnotcur⟩, ?_⟩
      exact (dictGet_eq_some_iff hold k r).mpr hmem
  · rintro rfl
    constructor
    · rfl
    · have : new_image_ids cur ([] : List (String × ImageInfo)) = dictKeys cur := by
        simp [new_image_ids, dictKeys]
      rw [new_images, this]
      exact filterMap_dictGet_self cur hcur

/-- Concrete records for the scenario theorems. -/
def rec1 : ImageInfo := { id := some 1, url := some "https://img/1", username := some "alice", extra := [] }

def rec2 : ImageInfo := { id := some 2, url := some "https://img/2", username := some "alice", extra := [] }

def rec3 : ImageInfo := { id := some 3, url := some "https://img/3", username := some "alice", extra := [] }

def rec4 : ImageInfo := { id := some 4, url := some "https://img/4", username := some "alice", extra := [] }

def demoOld : List (String × ImageInfo) := dictOfList [("1", rec1), ("2", rec2), ("3", rec3)]

def demoFetched : List ImageInfo := [rec2, rec3, rec4]

theorem c1_diff_engine_correct_witness :
    (dictKeys (dictOfList [("2", rec2), ("3", rec3), ("4", rec4)])).Nodup ∧
    (dictKeys ([] : List (String × ImageInfo))).Nodup ∧
    deleted_images_data (dictOfList [("2", rec2), ("3", rec3), ("4", rec4)])
      ([] : List (String × ImageInfo)) = [] ∧
    new_images (dictOfList [("2", rec2), ("3", rec3), ("4", rec4)])
      ([] : List (String × ImageInfo)) = [rec2, rec3, rec4] := by
  have h := (c1_diff_engine_correct []
    (dictOfList [("2", rec2), ("3", rec3), ("4", rec4)])
    (by decide) (by decide)).2.2 rfl
  exact ⟨by decide, by decide, h.1, by rw [h.2]; decide⟩

/-- C2: in the scenario with prior manifest ids 1,2,3 and current fetch
returning ids 2,3,4, the diff is added = record 4 and removed = record 1,
and the manifest saved at the end is the full current map with exactly the
keys 2,3,4 (the removed id is dropped, no tombstone). -/
theorem c2_scenario_diff_and_wholesale_save :
    syncRun demoOld demoFetched = some
      { newImages := [rec4], deletedData := [rec1],
        downloadsStarted := true, archiveCreated := true,
        savedManifest := [("2", rec2), ("3", rec3), ("4", rec4)] } ∧
    (syncRun demoOld demoFetched).map (fun r => dictKeys r.savedManifest) =
      some ["2", "3", "4"] := by
  constructor
  · decide
  · decide

/-- C6: when the current id set equals the manifest id set, added and
removed are both empty and neither the download branch nor the archive
step is triggered. -/
theorem c6_no_change_no_work (old cur : List (String × ImageInfo)) (fetched : List ImageInfo)
    (hmap : current_images_map fetched = some cur)
    (hkeys : ∀ k, k ∈ dictKeys cur ↔ k ∈ dictKeys old) :
    syncRun old fetched = some
      { newImages := [], deletedData := [], downloadsStarted := false,
        archiveCreated := false, savedManifest := cur } := by
  have hni : new_images cur old = [] := by
    rw [new_images, new_image_ids]
    have : (dictKeys cur).filter (fun i => decide (i ∉ dictKeys old)) = [] := by
      rw [List.filter_eq_nil_iff]
      intro k hk
      simp only [decide_eq_true_eq, Decidable.not_not]
      exact (hkeys k).mp hk
    rw [this]
    rfl
  have hdd : deleted_images_data cur old = [] := by
    rw [deleted_images_data, deleted_image_ids]
    have : (dictKeys old).filter (fun i => decide (i ∉ dictKeys cur)) = [] := by
      rw [List.filter_eq_nil_iff]
      intro k hk
      simp only [decide_eq_true_eq, Decidable.not_not]
      exact (hkeys k).mpr hk
    rw [this]
    rfl
  simp only [syncRun, hmap, Option.bind_eq_bind, Option.some_bind, hni, hdd]
  rfl

/-- Alternate copy of record 2 with different opaque metadata, standing in
for a manifest entry observed on an earlier run. -/
def rec2old : ImageInfo := { id := some 2, url := some "https://img/2", username := some "alice", extra := [("w", "512")] }

theorem c6_no_change_no_work_witness :
    current_images_map [rec2, rec3] = some [("2", rec2), ("3", rec3)] ∧
    syncRun [("2", rec2old), ("3", rec3)] [rec2, rec3] = some
      { newImages := [], deletedData := [], downloadsStarted := false,
        archiveCreated := false, savedManifest := [("2", rec2), ("3", rec3)] } := by
  refine ⟨by decide, ?_⟩
  exact c6_no_change_no_work [("2", rec2old), ("3", rec3)] [("2", rec2), ("3", rec3)]
    [rec2, rec3] (by decide) (fun k => Iff.rfl)

/-- One response of the paginated listing endpoint as consumed by
fetch_all_image_metadata: fail is a requests.RequestException (transport
failure or an HTTP error raised by raise_for_status), ok carries the items
of the page and whether a metadata.nextPage continuation URL is present. -/
inductive PageResponse where
  | fail
  | ok (items : List ImageInfo) (hasNext : Bool)
deriving DecidableEq

/-- Loop body of fetch_all_image_metadata (sync_and_report.py lines 29-46):
a failure breaks the loop returning the accumulator, an empty items list
breaks, otherwise the items are appended and the loop continues while a
continuation token remains. The remote is modelled as the finite sequence
of responses the successive requests would receive. -/
def fetch_all_aux (acc : List ImageInfo) : List PageResponse → List ImageInfo
  | [] => acc
  | .fail :: _ => acc
  | .ok items hasNext :: rest =>
    if items.isEmpty then acc
    else if hasNext then fetch_all_aux (acc ++ items) rest
    else acc ++ items

/-- fetch_all_image_metadata (sync_and_report.py lines 22-49). -/
def fetch_all_image_metadata (responses : List PageResponse) : List ImageInfo :=
  fetch_all_aux [] responses

theorem fetch_all_aux_append_fail (pages : List (List ImageInfo)) (tail : List PageResponse)
    (acc : List ImageInfo) (hne : ∀ p ∈ pages, p ≠ []) :
    fetch_all_aux acc (pages.map (fun p => PageResponse.ok p true) ++ .fail :: tail)
      = acc ++ pages.flatten := by
  induction pages generalizing acc with
  | nil => simp [fetch_all_aux]
  | cons p rest ih =>
    have hp : p.isEmpty = false := by
      rcases p with - | ⟨a, l⟩
      · exact absurd rfl (hne [] (List.mem_cons_self _ _))
      · rfl
    simp only [List.map_cons, List.cons_append, fetch_all_aux, hp, Bool.false_eq_true,
      if_false, if_true, List.append_eq]
    rw [ih (acc ++ p) (fun q hq => hne q (List.mem_cons_of_mem _ hq))]
    simp [List.append_assoc]

/-- C4: when a transport-level or HTTP-level failure answers the request
for page k, the Metadata Collector stops pagination and returns exactly
the items accumulated from the pages fetched before the failure. -/
theorem c4_partial_results_on_failure (pages : List (List ImageInfo))
    (tail : List PageResponse) (hne : ∀ p ∈ pages, p ≠ []) :
    fetch_all_image_metadata (pages.map (fun p => PageResponse.ok p true) ++ .fail :: tail)
      = pages.flatten := by
  rw [fetch_all_image_metadata, fetch_all_aux_append_fail pages tail [] hne]
  rfl

/-- Record 5, present on a page the collector never reaches. -/
def rec5 : ImageInfo := { id := some 5, url := some "https://img/5", username := some "alice", extra := [] }

theorem c4_partial_results_on_failure_witness :
    fetch_all_image_metadata
      ([[rec1, rec2]].map (fun p => PageResponse.ok p true) ++
        .fail :: [PageResponse.ok [rec3, rec4, rec5] false])
      = [rec1, rec2] := by
  rw [c4_partial_results_on_failure [[rec1, rec2]] [PageResponse.ok [rec3, rec4, rec5] false]
    (by decide)]
  rfl

/-- State visible at the end of the download branch of main: the files
still present in the temp directory, whether the zip was produced, and the
manifest contents persisted by save_manifest (none = never saved). -/
structure EndState where
  tempFiles : List String
  zipWritten : Bool
  savedManifest : Option (List (String × ImageInfo))
deriving DecidableEq

/-- create_zip_archive (sync_and_report.py lines 86-99): the try/except
around the zipfile write catches every exception and only prints it, so
the caller never observes a failure; the Bool records whether the archive
was actually produced. -/
def create_zip_archive (zipOk : Bool) : Bool := zipOk

/-- Cleanup loop of main (sync_and_report.py lines 223-224): every file
listed in the temp directory is removed. -/
def remove_each (files : List String) : List String :=
  files.foldl (fun remaining f => remaining.erase f) files

theorem list_diff_self_eq_nil (l : List String) : l.diff l = [] := by
  induction l with
  | nil => rfl
  | cons a tl ih => rw [List.diff_cons, List.erase_cons_head, ih]

theorem remove_each_eq_nil (files : List String) : remove_each files = [] := by
  have haux : ∀ (l acc : List String), l.foldl (fun remaining f => remaining.erase f) acc
      = acc.diff l := by
    intro l
    induction l with
    | nil => intro acc; rfl
    | cons a tl ih =>
      intro acc
      simp only [List.foldl_cons, List.diff_cons]
      exact ih (acc.erase a)
  rw [remove_each, haux]
  exact list_diff_self_eq_nil files

/-- Tail of main after the downloads (sync_and_report.py lines 216-230):
call create_zip_archive (whose failures are swallowed internally), then
unconditionally delete the temp files and their directory, then
save_manifest with the full current map. -/
def finish_run (zipOk : Bool) (tempFiles : List String)
    (cur : List (String × ImageInfo)) : EndState :=
  let zipWritten := create_zip_archive zipOk
  let remaining := remove_each tempFiles
  { tempFiles := remaining, zipWritten := zipWritten, savedManifest := some cur }

/-- C5 counterexample: on a run whose archive creation fails, the
downloaded file is not left in place (the cleanup loop deletes it) and the
run does not halt before the manifest save (the manifest is persisted). -/
theorem c5_counterexample :
    (finish_run false ["alice_4.jpeg"] [("4", rec4)]).savedManifest = some [("4", rec4)] ∧
    (finish_run false ["alice_4.jpeg"] [("4", rec4)]).tempFiles = [] ∧
    (finish_run false ["alice_4.jpeg"] [("4", rec4)]).zipWritten = false := by
  refine ⟨?_, ?_, ?_⟩
  · rw [finish_run, remove_each_eq_nil]
  · rw [finish_run, remove_each_eq_nil]
  · rfl

/-- C5 amended: an archive creation failure is caught inside
create_zip_archive and only printed; the run then continues regardless,
deletes all the already-downloaded individual files in the cleanup loop,
and still saves the manifest, so the state mutation is persisted. -/
theorem c5_amended_archive_failure_not_fatal (zipOk : Bool) (tempFiles : List String)
    (cur : List (String × ImageInfo)) :
    finish_run zipOk tempFiles cur =
      { tempFiles := [], zipWritten := zipOk, savedManifest := some cur } := by
  rw [finish_run, remove_each_eq_nil]
  rfl

/-- Deterministic output filename (sync_and_report.py line 72):
username_imageid.jpeg, derived from the owning-creator name and the
identifier only. -/
def jpeg_filename (username : String) (imageId : Int) : String :=
  username ++ "_" ++ toString imageId ++ ".jpeg"

/-- os.path.join(output_path, jpeg_filename) (sync_and_report.py line 73). -/
def jpeg_filepath (outputPath username : String) (imageId : Int) : String :=
  outputPath ++ "/" ++ jpeg_filename username imageId

theorem dictInsert_idem {α : Type} (k : String) (v : α) (m : List (String × α)) :
    dictInsert k v (dictInsert k v m) = dictInsert k v m := by
  induction m with
  | nil => simp [dictInsert]
  | cons hd tl ih =>
    obtain ⟨k₁, v₁⟩ := hd
    by_cases h : k₁ = k
    · rw [dictInsert_cons, if_pos h, dictInsert_cons, if_pos rfl]
    · rw [dictInsert_cons, if_neg h, dictInsert_cons, if_neg h, ih]

/-- Success path of the download/convert worker (sync_and_report.py lines
62-74): fetch the asset bytes at the url, re-encode them at the given jpeg
quality, and write the result at the deterministic path; img.save
overwrites an existing file at the same path, modelled by dictInsert on
the path-to-bytes filesystem dict. -/
def worker_write (remote : String → String) (encode : String → Nat → String)
    (fs : List (String × String)) (outputPath username : String) (imageId : Int)
    (url : String) (quality : Nat) : List (String × String) :=
  dictInsert (jpeg_filepath outputPath username imageId) (encode (remote url) quality) fs

/-- C7: the worker writes under a deterministic filename derived from the
owning-creator name and the identifier, so a second run on the same record
with the same quality and output path overwrites the first file: the
filesystem is unchanged by the second run, stays duplicate-free, and holds
exactly one file at that path. -/
theorem c7_worker_idempotent (remote : String → String) (encode : String → Nat → String)
    (fs : List (String × String)) (outputPath username : String) (imageId : Int)
    (url : String) (quality : Nat) (hnd : (dictKeys fs).Nodup) :
    worker_write remote encode
        (worker_write remote encode fs outputPath username imageId url quality)
        outputPath username imageId url quality
      = worker_write remote encode fs outputPath username imageId url quality ∧
    (dictKeys (worker_write remote encode fs outputPath username imageId url quality)).Nodup ∧
    (dictKeys (worker_write remote encode fs outputPath username imageId url quality)).count
        (jpeg_filepath outputPath username imageId) = 1 := by
  refine ⟨dictInsert_idem _ _ _, nodup_dictKeys_dictInsert _ _ _ hnd, ?_⟩
  exact List.count_eq_one_of_mem (nodup_dictKeys_dictInsert _ _ _ hnd)
    ((mem_dictKeys_dictInsert _ _ _ _).mpr (Or.inl rfl))

theorem c7_worker_idempotent_witness :
    (dictKeys [("out/old.jpeg", "bytes0")]).Nodup ∧
    worker_write (fun _ => "raw") (fun b q => b ++ toString q)
        (worker_write (fun _ => "raw") (fun b q => b ++ toString q)
          [("out/old.jpeg", "bytes0")] "out" "alice" 4 "https://img/4" 85)
        "out" "alice" 4 "https://img/4" 85
      = worker_write (fun _ => "raw") (fun b q => b ++ toString q)
          [("out/old.jpeg", "bytes0")] "out" "alice" 4 "https://img/4" 85 := by
  refine ⟨by decide, ?_⟩
  exact (c7_worker_idempotent (fun _ => "raw") (fun b q => b ++ toString q)
    [("out/old.jpeg", "bytes0")] "out" "alice" 4 "https://img/4" 85 (by decide)).1

/-- Python truthiness of image_info.get for the id field (line 59,
if not image_id): None and 0 are falsy. -/
def truthyId : Option Int → Bool
  | none => false
  | some n => decide (n ≠ 0)

/-- Python truthiness of image_info.get for the url field (line 59,
if not image_url): None and the empty string are falsy. -/
def truthyStr : Option String → Bool
  | none => false
  | some s => decide (s ≠ "")

/-- Shared worker state: the output directory contents and the locked
download_progress count counter. -/
structure WorkerState where
  fs : List (String × String)
  count : Nat
deriving DecidableEq

/-- download_and_convert_image (sync_and_report.py lines 51-84). The
requests.get, Image.open and img.save of the try block are collapsed into
one oracle call: some bytes when the GET, decode and save succeed, none
for an exception anywhere in the try block. Returns the Python return
value (None on success, a message otherwise) with the updated state; the
except branch also increments the shared counter (lines 82-83). -/
def download_and_convert_image (remote : String → Option String)
    (encode : String → Nat → String) (st : WorkerState) (info : ImageInfo)
    (outputPath : String) (quality : Nat) : Option String × WorkerState :=
  if !truthyId info.id || !truthyStr info.url then
    (some "信息不完整，跳过", st)
  else
    match remote (info.url.getD "") with
    | some bytes =>
        (none,
          { fs := dictInsert
              (jpeg_filepath outputPath (info.username.getD "unknown") (info.id.getD 0))
              (encode bytes quality) st.fs,
            count := st.count + 1 })
    | none => (some "处理图片失败", { fs := st.fs, count := st.count + 1 })

/-- C10: the worker returns None exactly when the local JPEG write
happened (the guard passed and the try block succeeded); on success the
filesystem gains exactly the converted file; on any non-None return the
filesystem is untouched; and a record with a missing (falsy) id or url is
skipped immediately with a message, no file write and no counter
increment. -/
theorem c10_worker_return_semantics (remote : String → Option String)
    (encode : String → Nat → String) (st : WorkerState) (info : ImageInfo)
    (outputPath : String) (quality : Nat) :
    ((download_and_convert_image remote encode st info outputPath quality).1 = none ↔
      (truthyId info.id ∧ truthyStr info.url ∧ (remote (info.url.getD "")).isSome)) ∧
    ((download_and_convert_image remote encode st info outputPath quality).1 = none →
      (download_and_convert_image remote encode st info outputPath quality).2.fs =
        dictInsert (jpeg_filepath outputPath (info.username.getD "unknown") (info.id.getD 0))
          (encode ((remote (info.url.getD "")).getD "") quality) st.fs ∧
      (download_and_convert_image remote encode st info outputPath quality).2.count =
        st.count + 1) ∧
    ((download_and_convert_image remote encode st info outputPath quality).1 ≠ none →
      (download_and_convert_image remote encode st info outputPath quality).2.fs = st.fs) ∧
    ((¬ truthyId info.id ∨ ¬ truthyStr info.url) →
      (download_and_convert_image remote encode st info outputPath quality).1.isSome = true ∧
      (download_and_convert_image remote encode st info outputPath quality).2 = st) := by
  cases htid : truthyId info.id with
  | false => simp [download_and_convert_image, htid]
  | true =>
    cases hturl : truthyStr info.url with
    | false => simp [download_and_convert_image, htid, hturl]
    | true =>
      cases hrem : remote (info.url.getD "") with
      | none => simp [download_and_convert_image, htid, hturl, hrem]
      | some bytes => simp [download_and_convert_image, htid, hturl, hrem]

/-- The three artifacts emitted by the Report Generator: the summary
document and the two identifier-list files. -/
structure Reports where
  summary : String
  newIdsTxt : String
  deletedIdsTxt : String
deriving DecidableEq

/-- Detail line of an added image (sync_and_report.py line 132); none
models the KeyError on a record missing the id or url key. -/
def new_image_line (img : ImageInfo) : Option String := do
  let i ← img.id
  let u ← img.url
  some ("- ID: " ++ toString i ++ ", URL: " ++ u ++ "\n")

/-- Detail line of a removed image (sync_and_report.py line 139). -/
def deleted_image_line (img : ImageInfo) : Option String := do
  let i ← img.id
  let u ← img.username
  some ("- ID: " ++ toString i ++ ", Username: " ++ u ++ "\n")

/-- One line of the plain identifier lists (lines 147 and 151). -/
def id_line (img : ImageInfo) : Option String := do
  let i ← img.id
  some (toString i ++ "\n")

def joinStrings (l : List String) : String := l.foldl (fun a b => a ++ b) ""

/-- generate_reports (sync_and_report.py lines 118-151): the artifacts are
returned instead of written under reports_dir, and the datetime.utcnow()
clock read of line 125 is the injected timestamp input ts. -/
def generate_reports (ts : String) (new_images deleted_images_data : List ImageInfo) :
    Option Reports := do
  let newLines ← new_images.mapM new_image_line
  let delLines ← deleted_images_data.mapM deleted_image_line
  let newIds ← new_images.mapM id_line
  let delIds ← deleted_images_data.mapM id_line
  some
    { summary :=
        "# Civitai 同步报告 - " ++ ts ++ "\n\n" ++
        "- **新增图片**: " ++ toString new_images.length ++ " 张\n" ++
        "- **删除图片**: " ++ toString deleted_images_data.length ++ " 张\n\n" ++
        "## 新增图片详情\n" ++
        (if new_images.isEmpty then "无\n" else joinStrings newLines) ++
        "\n## 删除图片详情\n" ++
        (if deleted_images_data.isEmpty then "无\n" else joinStrings delLines),
      newIdsTxt := joinStrings newIds,
      deletedIdsTxt := joinStrings delIds }

/-- Projection to the only fields the reports read. -/
def report_view (img : ImageInfo) : Option Int × Option String × Option String :=
  (img.id, img.url, img.username)

theorem mapM_congr_view {β : Type} (g : ImageInfo → Option β)
    (hg : ∀ i₁ i₂, report_view i₁ = report_view i₂ → g i₁ = g i₂) :
    ∀ (l₁ l₂ : List ImageInfo), l₁.map report_view = l₂.map report_view →
      l₁.mapM g = l₂.mapM g := by
  intro l₁
  induction l₁ with
  | nil =>
    intro l₂ h
    cases l₂ with
    | nil => rfl
    | cons b tl => simp at h
  | cons a tl ih =>
    intro l₂ h
    cases l₂ with
    | nil => simp at h
    | cons b tl₂ =>
      simp only [List.map_cons, List.cons.injEq] at h
      rw [List.mapM_cons, List.mapM_cons, hg a b h.1, ih tl₂ h.2]

theorem isEmpty_eq_of_length_eq {α β : Type} {l₁ : List α} {l₂ : List β}
    (h : l₁.length = l₂.length) : l₁.isEmpty = l₂.isEmpty := by
  cases l₁ with
  | nil =>
    cases l₂ with
    | nil => rfl
    | cons b tl => simp at h
  | cons a tl =>
    cases l₂ with
    | nil => simp at h
    | cons b tl₂ => rfl

/-- C9: two runs of the Report Generator on the same DiffResult content
(records equal in the id, url and username fields the reports read) with
the same injected timestamp emit identical summary and identifier-list
artifacts; the clock read is the only non-deterministic input of the
function and is an explicit parameter of this embedding. -/
theorem c9_reports_deterministic (ts₁ ts₂ : String) (n₁ n₂ d₁ d₂ : List ImageInfo)
    (hts : ts₁ = ts₂) (hn : n₁.map report_view = n₂.map report_view)
    (hd : d₁.map report_view = d₂.map report_view) :
    generate_reports ts₁ n₁ d₁ = generate_reports ts₂ n₂ d₂ := by
  subst hts
  have hview : ∀ {i₁ i₂ : ImageInfo}, report_view i₁ = report_view i₂ →
      i₁.id = i₂.id ∧ i₁.url = i₂.url ∧ i₁.username = i₂.username := by
    intro i₁ i₂ h
    rw [report_view, report_view, Prod.mk.injEq, Prod.mk.injEq] at h
    exact ⟨h.1, h.2.1, h.2.2⟩
  have hnew : ∀ i₁ i₂, report_view i₁ = report_view i₂ →
      new_image_line i₁ = new_image_line i₂ := by
    intro i₁ i₂ h
    obtain ⟨h1, h2, -⟩ := hview h
    rw [new_image_line, new_image_line, h1, h2]
  have hdel : ∀ i₁ i₂, report_view i₁ = report_view i₂ →
      deleted_image_line i₁ = deleted_image_line i₂ := by
    intro i₁ i₂ h
    obtain ⟨h1, -, h3⟩ := hview h
    rw [deleted_image_line, deleted_image_line, h1, h3]
  have hid : ∀ i₁ i₂, report_view i₁ = report_view i₂ → id_line i₁ = id_line i₂ := by
    intro i₁ i₂ h
    obtain ⟨h1, -, -⟩ := hview h
    rw [id_line, id_line, h1]
  have hlen_n : n₁.length = n₂.length := by
    have := congrArg List.length hn
    simpa using this
  have hlen_d : d₁.length = d₂.length := by
    have := congrArg List.length hd
    simpa using this
  rw [generate_reports, generate_reports, mapM_congr_view new_image_line hnew n₁ n₂ hn,
    mapM_congr_view deleted_image_line hdel d₁ d₂ hd, mapM_congr_view id_line hid n₁ n₂ hn,
    mapM_congr_view id_line hid d₁ d₂ hd, hlen_n, hlen_d,
    isEmpty_eq_of_length_eq hlen_n, isEmpty_eq_of_length_eq hlen_d]

/-- Copy of record 4 with different opaque metadata: the reports must not
depend on the pass-through fields. -/
def rec4extra : ImageInfo := { id := some 4, url := some "https://img/4", username := some "alice", extra := [("reactions", "12")] }

theorem c9_reports_deterministic_witness :
    "2026-02-03 04:05:06 UTC" = "2026-02-03 04:05:06 UTC" ∧
    generate_reports "2026-02-03 04:05:06 UTC" [rec4] [rec1]
      = generate_reports "2026-02-03 04:05:06 UTC" [rec4extra] [rec1] :=
  ⟨rfl, c9_reports_deterministic "2026-02-03 04:05:06 UTC" "2026-02-03 04:05:06 UTC"
    [rec4] [rec4extra] [rec1] [rec1] rfl (by decide) (by decide)⟩

/-- JSON document tree as exchanged between json.dump and json.load in
save_manifest and load_manifest. Numbers are modelled as integers (the
manifest data of this pipeline carries ids and counts; floats are outside
the model), objects as insertion-ordered key-value lists. -/
inductive Json where
  | null
  | bool (b : Bool)
  | num (n : Int)
  | str (s : String)
  | arr (elems : List Json)
  | obj (members : List (String × Json))

/-- Decimal digit character, codepoint 48 + d. -/
def digitChar (d : Nat) : Char := Char.ofNat (48 + d)

/-- Decimal rendering of a natural number, most significant digit first,
as Python str(int) produces it. -/
def natToChars (n : Nat) : List Char :=
  if h : n < 10 then [digitChar n]
  else natToChars (n / 10) ++ [digitChar (n % 10)]
decreasing_by exact Nat.div_lt_self (by omega) (by omega)

/-- Python str of an int: decimal digits with a leading minus sign when
negative. -/
def intToChars : Int → List Char
  | .ofNat n => natToChars n
  | .negSucc n => '-' :: natToChars (n + 1)

/-- Lowercase hexadecimal digit, as used by the json \u escapes. -/
def hexDigitChar (d : Nat) : Char :=
  if d < 10 then Char.ofNat (48 + d) else Char.ofNat (87 + d)

/-- Four lowercase hex digits of a codepoint below 0x10000. -/
def hex4 (n : Nat) : List Char :=
  [hexDigitChar (n / 4096 % 16), hexDigitChar (n / 256 % 16),
   hexDigitChar (n / 16 % 16), hexDigitChar (n % 16)]

/-- Escaping of one character by json.dump with the default
ensure_ascii=True: the named escapes, printable ASCII passed through, and
every other codepoint as \uXXXX, non-BMP ones as a surrogate pair. -/
def escapeChar (c : Char) : List Char :=
  if c = '"' then ['\\', '"']
  else if c = '\\' then ['\\', '\\']
  else if c = '\n' then ['\\', 'n']
  else if c = '\r' then ['\\', 'r']
  else if c = '\t' then ['\\', 't']
  else if c = '\x08' then ['\\', 'b']
  else if c = '\x0c' then ['\\', 'f']
  else if 32 ≤ c.toNat ∧ c.toNat ≤ 126 then [c]
  else if c.toNat < 65536 then '\\' :: 'u' :: hex4 c.toNat
  else
    '\\' :: 'u' :: hex4 (55296 + (c.toNat - 65536) / 1024) ++
      '\\' :: 'u' :: hex4 (56320 + (c.toNat - 65536) % 1024)

def escapeString : List Char → List Char
  | [] => []
  | c :: rest => escapeChar c ++ escapeString rest

/-- Indentation prefix written by json.dump with indent=4 at a given
nesting level. -/
def indentChars (lvl : Nat) : List Char := List.replicate (4 * lvl) ' '

mutual
/-- Serialization of a JSON value by json.dump(data, f, indent=4) as
called by save_manifest (sync_and_report.py line 115): default separators
with indent give one item per line, a comma directly after each non-final
item, and a colon-space between key and value. -/
def dumpVal : Nat → Json → List Char
  | _, .null => ['n', 'u', 'l', 'l']
  | _, .bool true => ['t', 'r', 'u', 'e']
  | _, .bool false => ['f', 'a', 'l', 's', 'e']
  | _, .num n => intToChars n
  | _, .str s => '"' :: escapeString s.data ++ ['"']
  | _, .arr [] => ['[', ']']
  | lvl, .arr (x :: xs) =>
      '[' :: dumpElems (lvl + 1) x xs ++ '\n' :: indentChars lvl ++ [']']
  | _, .obj [] => ['\x7b', '\x7d']
  | lvl, .obj (kv :: kvs) =>
      '\x7b' :: dumpMembers (lvl + 1) kv kvs ++ '\n' :: indentChars lvl ++ ['\x7d']
termination_by lvl j => sizeOf j
decreasing_by all_goals (simp_wf; try omega)

def dumpElems : Nat → Json → List Json → List Char
  | lvl, x, [] => '\n' :: indentChars lvl ++ dumpVal lvl x
  | lvl, x, y :: ys =>
      '\n' :: indentChars lvl ++ dumpVal lvl x ++ ',' :: dumpElems lvl y ys
termination_by lvl x xs => 1 + sizeOf x + sizeOf xs
decreasing_by all_goals (simp_wf; try omega)

def dumpMembers : Nat → (String × Json) → List (String × Json) → List Char
  | lvl, (k, v), [] =>
      '\n' :: indentChars lvl ++ '"' :: escapeString k.data ++ '"' :: ':' :: ' ' ::
        dumpVal lvl v
  | lvl, (k, v), kv :: kvs =>
      '\n' :: indentChars lvl ++ '"' :: escapeString k.data ++ '"' :: ':' :: ' ' ::
        dumpVal lvl v ++ ',' :: dumpMembers lvl kv kvs
termination_by lvl kv kvs => 1 + sizeOf kv + sizeOf kvs
decreasing_by all_goals (simp_wf; try omega)
end

mutual
/-- Wellformedness of a JSON document as a Python value: every object has
distinct keys (a Python dict cannot hold duplicates). -/
def jsonWf : Json → Bool
  | .null => true
  | .bool _ => true
  | .num _ => true
  | .str _ => true
  | .arr xs => jsonListWf xs
  | .obj kvs => decide (kvs.map Prod.fst).Nodup && jsonMembersWf kvs
termination_by j => sizeOf j
decreasing_by all_goals (simp_wf; try omega)

def jsonListWf : List Json → Bool
  | [] => true
  | x :: xs => jsonWf x && jsonListWf xs
termination_by xs => sizeOf xs
decreasing_by all_goals (simp_wf; try omega)

def jsonMembersWf : List (String × Json) → Bool
  | [] => true
  | (_, v) :: kvs => jsonWf v && jsonMembersWf kvs
termination_by kvs => sizeOf kvs
decreasing_by all_goals (simp_wf; try omega)
end

mutual
/-- Fuel needed by the recursive-descent parser on the serialized form of
a value: one step per parseVal entry plus one per element step. -/
def jsonFuel : Json → Nat
  | .null => 1
  | .bool _ => 1
  | .num _ => 1
  | .str _ => 1
  | .arr [] => 1
  | .arr (x :: xs) => 1 + elemsFuel x xs
  | .obj [] => 1
  | .obj (kv :: kvs) => 1 + membersFuel kv kvs
termination_by j => sizeOf j
decreasing_by all_goals (simp_wf; try omega)

def elemsFuel : Json → List Json → Nat
  | x, [] => 1 + jsonFuel x
  | x, y :: ys => 1 + max (jsonFuel x) (elemsFuel y ys)
termination_by x xs => 1 + sizeOf x + sizeOf xs
decreasing_by all_goals (simp_wf; try omega)

def membersFuel : (String × Json) → List (String × Json) → Nat
  | (_, v), [] => 1 + jsonFuel v
  | (_, v), kv :: kvs => 1 + max (jsonFuel v) (membersFuel kv kvs)
termination_by kv kvs => 1 + sizeOf kv + sizeOf kvs
decreasing_by all_goals (simp_wf; try omega)
end

/-- Whitespace skipped by json.load between tokens: space, tab, newline,
carriage return. -/
def skipWs : List Char → List Char
  | [] => []
  | c :: rest =>
    if c = ' ' ∨ c = '\t' ∨ c = '\n' ∨ c = '\r' then skipWs rest else c :: rest

/-- Value of one hexadecimal digit, both cases accepted as json.load does. -/
def hexVal (c : Char) : Option Nat :=
  if 48 ≤ c.toNat ∧ c.toNat ≤ 57 then some (c.toNat - 48)
  else if 97 ≤ c.toNat ∧ c.toNat ≤ 102 then some (c.toNat - 87)
  else if 65 ≤ c.toNat ∧ c.toNat ≤ 70 then some (c.toNat - 55)
  else none

def isDigitChar (c : Char) : Bool := decide (48 ≤ c.toNat ∧ c.toNat ≤ 57)

/-- Decimal digits to a natural number, most significant first. -/
def charsToNat (ds : List Char) : Nat := ds.foldl (fun a c => a * 10 + (c.toNat - 48)) 0

/-- Integer literal parsing of json.load restricted to the integer grammar
of this model: an optional minus sign followed by decimal digits. -/
def parseNum (cs : List Char) : Option (Json × List Char) :=
  match cs with
  | [] => none
  | c :: rest =>
    if c = '-' then
      let ds := rest.takeWhile isDigitChar
      if ds.isEmpty then none
      else some (.num (-(charsToNat ds : Int)), rest.dropWhile isDigitChar)
    else
      let ds := (c :: rest).takeWhile isDigitChar
      if ds.isEmpty then none
      else some (.num ((charsToNat ds : Nat) : Int), (c :: rest).dropWhile isDigitChar)

/-- Match an exact run of characters, returning the remainder. -/
def expect : List Char → List Char → Option (List Char)
  | [], cs => some cs
  | p :: ps, c :: cs => if c = p then expect ps cs else none
  | _ :: _, [] => none

/-- Combined value of four hex digits, none when any is not a hex digit. -/
def hex4Val (a b c d : Char) : Option Nat :=
  match hexVal a, hexVal b, hexVal c, hexVal d with
  | some x, some y, some z, some w => some (((x * 16 + y) * 16 + z) * 16 + w)
  | _, _, _, _ => none

/-- Codepoint escape \uXXXX of json.load, the input starting at the first
hex digit: four hex digits, and when they form a high surrogate followed
by an escaped low surrogate the pair is recombined, exactly as json.load
does; a lone surrogate (which json.dump never emits) falls back to
Char.ofNat on its raw codepoint. -/
def parseUEscape : List Char → Option (Char × List Char)
  | h1 :: h2 :: h3 :: h4 :: r₂ =>
    match hex4Val h1 h2 h3 h4 with
    | none => none
    | some n =>
      if 55296 ≤ n ∧ n ≤ 56319 then
        match r₂ with
        | b1 :: b2 :: g1 :: g2 :: g3 :: g4 :: r₃ =>
          if b1 = '\\' ∧ b2 = 'u' then
            match hex4Val g1 g2 g3 g4 with
            | some m =>
              if 56320 ≤ m ∧ m ≤ 57343 then
                some (Char.ofNat (65536 + (n - 55296) * 1024 + (m - 56320)), r₃)
              else some (Char.ofNat n, b1 :: b2 :: g1 :: g2 :: g3 :: g4 :: r₃)
            | none => some (Char.ofNat n, b1 :: b2 :: g1 :: g2 :: g3 :: g4 :: r₃)
          else some (Char.ofNat n, b1 :: b2 :: g1 :: g2 :: g3 :: g4 :: r₃)
        | r₄ => some (Char.ofNat n, r₄)
      else some (Char.ofNat n, r₂)
  | _ => none

/-- One backslash escape of a JSON string literal, the input starting just
after the backslash: the named escapes or a \uXXXX codepoint. -/
def parseEscape : List Char → Option (Char × List Char)
  | [] => none
  | e :: r =>
    if e = '"' then some ('"', r)
    else if e = '\\' then some ('\\', r)
    else if e = '/' then some ('/', r)
    else if e = 'b' then some ('\x08', r)
    else if e = 'f' then some ('\x0c', r)
    else if e = 'n' then some ('\n', r)
    else if e = 'r' then some ('\x0d', r)
    else if e = 't' then some ('\t', r)
    else if e = 'u' then parseUEscape r
    else none

/-- Body of a JSON string literal after the opening quote: plain
characters up to the closing quote and backslash escapes, driven by a fuel
bounded below by the number of decoded characters. -/
def parseStringFuel : Nat → List Char → Option (List Char × List Char)
  | 0, _ => none
  | fuel + 1, cs =>
    match cs with
    | [] => none
    | c :: rest =>
      if c = '"' then some ([], rest)
      else if c = '\\' then
        match parseEscape rest with
        | none => none
        | some (d, r) => (parseStringFuel fuel r).map (fun p => (d :: p.1, p.2))
      else (parseStringFuel fuel rest).map (fun p => (c :: p.1, p.2))

/-- String literal body scanning of json.load; the input length bounds the
decoded length, so it serves as fuel. -/
def parseStringBody (cs : List Char) : Option (List Char × List Char) :=
  parseStringFuel (cs.length + 1) cs

mutual
/-- One JSON value scanned by json.load: leading whitespace skipped, then
dispatch on the first character to the literals, a string, an array, an
object, or a number. -/
def parseVal : Nat → List Char → Option (Json × List Char)
  | 0, _ => none
  | fuel + 1, cs =>
    match skipWs cs with
    | [] => none
    | c :: rest =>
      if c = 'n' then (expect ['u', 'l', 'l'] rest).map (fun r => (.null, r))
      else if c = 't' then (expect ['r', 'u', 'e'] rest).map (fun r => (.bool true, r))
      else if c = 'f' then (expect ['a', 'l', 's', 'e'] rest).map (fun r => (.bool false, r))
      else if c = '"' then
        (parseStringBody rest).map (fun p => (.str (String.mk p.1), p.2))
      else if c = '[' then
        match skipWs rest with
        | [] => none
        | c₂ :: rest₂ =>
          if c₂ = ']' then some (.arr [], rest₂)
          else (parseElems fuel (c₂ :: rest₂)).map (fun p => (.arr p.1, p.2))
      else if c = '\x7b' then
        match skipWs rest with
        | [] => none
        | c₂ :: rest₂ =>
          if c₂ = '\x7d' then some (.obj [], rest₂)
          else (parseMembers fuel (c₂ :: rest₂)).map
            (fun p => (.obj (dictOfList p.1), p.2))
      else parseNum (c :: rest)

/-- Comma-separated values of a nonempty array, built like the json.load
array scanner: parse a value, then a comma continues and a closing bracket
ends. -/
def parseElems : Nat → List Char → Option (List Json × List Char)
  | 0, _ => none
  | fuel + 1, cs =>
    match parseVal fuel cs with
    | none => none
    | some (v, cs₁) =>
      match skipWs cs₁ with
      | [] => none
      | c :: r =>
        if c = ',' then
          match parseElems fuel r with
          | none => none
          | some (vs, rest) => some (v :: vs, rest)
        else if c = ']' then some ([v], r)
        else none

/-- Comma-separated members of a nonempty object: a quoted key, a colon, a
value, then a comma continues and a closing brace ends. -/
def parseMembers : Nat → List Char → Option (List (String × Json) × List Char)
  | 0, _ => none
  | fuel + 1, cs =>
    match skipWs cs with
    | [] => none
    | c :: r₁ =>
      if c = '"' then
        match parseStringBody r₁ with
        | none => none
        | some (kChars, r₂) =>
          match skipWs r₂ with
          | [] => none
          | c₂ :: r₃ =>
            if c₂ = ':' then
              match parseVal fuel r₃ with
              | none => none
              | some (v, r₄) =>
                match skipWs r₄ with
                | [] => none
                | c₃ :: r₅ =>
                  if c₃ = ',' then
                    match parseMembers fuel r₅ with
                    | none => none
                    | some (kvs, rest) => some ((String.mk kChars, v) :: kvs, rest)
                  else if c₃ = '\x7d' then some ([(String.mk kChars, v)], r₅)
                  else none
            else none
      else none
end

/-- json.loads of a whole document: parse one value with fuel ample for
any serialized input, then require only trailing whitespace, as the
json.load wrapper does. -/
def json_loads (s : String) : Option Json :=
  match parseVal (s.length + 1) s.data with
  | some (j, rest) => if (skipWs rest).isEmpty then some j else none
  | none => none

/-- save_manifest (sync_and_report.py lines 112-116): json.dump(data, f,
indent=4) serializes the manifest document into the file. -/
def save_manifest (data : Json) : String := String.mk (dumpVal 0 data)

/-- Manifest file state on disk as observed by load_manifest. -/
inductive FileState where
  | missing
  | present (content : String)

/-- load_manifest (sync_and_report.py lines 103-110): a missing path gives
the empty dict (first run); an existing file is parsed by json.load, whose
JSONDecodeError on malformed content propagates out of load_manifest
uncaught. -/
def load_manifest : FileState → Except String Json
  | .missing => .ok (Json.obj [])
  | .present s =>
    match json_loads s with
    | some j => .ok j
    | none => .error "JSONDecodeError"

/-- A JSON document used as a Python dict (old_manifest.keys() at
sync_and_report.py line 165); error models the AttributeError raised when
the document is not an object. -/
def jsonAsDict : Json → Except String (List (String × Json))
  | .obj kvs => .ok kvs
  | _ => .error "AttributeError"

/-- Prefix of main up to the diff (sync_and_report.py lines 164-184): load
the manifest, read its keys, build the current map and compute the diff.
An exception while loading propagates and halts the run before any
diffing. -/
def main_load_and_diff (file : FileState) (fetched : List ImageInfo) :
    Except String (List ImageInfo × List Json) := do
  let oldJson ← load_manifest file
  let old ← jsonAsDict oldJson
  match current_images_map fetched with
  | none => .error "KeyError"
  | some cur => .ok (new_images cur old, deleted_images_data cur old)

theorem char_toNat_ofNat {n : Nat} (h : n.isValidChar) : (Char.ofNat n).toNat = n := by
  simp [Char.ofNat, dif_pos h, Char.ofNatAux, Char.toNat, UInt32.toNat]

theorem char_valid_nat (c : Char) :
    c.toNat < 55296 ∨ (57343 < c.toNat ∧ c.toNat < 1114112) := by
  rcases c.valid with h | ⟨h1, h2⟩
  · exact Or.inl h
  · exact Or.inr ⟨h1, h2⟩

theorem char_ne_of_toNat_ne {c d : Char} (h : c.toNat ≠ d.toNat) : c ≠ d :=
  fun he => h (he ▸ rfl)

theorem skipWs_cons (c : Char) (t : List Char) :
    skipWs (c :: t) =
      if c = ' ' ∨ c = '\t' ∨ c = '\n' ∨ c = '\r' then skipWs t else c :: t := rfl

theorem skipWs_newline (t : List Char) : skipWs ('\n' :: t) = skipWs t := by
  rw [skipWs_cons, if_pos (by decide)]

theorem skipWs_replicate_space (n : Nat) (t : List Char) :
    skipWs (List.replicate n ' ' ++ t) = skipWs t := by
  induction n with
  | zero => rfl
  | succ m ih =>
    rw [List.replicate_succ, List.cons_append, skipWs_cons, if_pos (by decide)]
    exact ih

theorem skipWs_indent (lvl : Nat) (t : List Char) :
    skipWs (indentChars lvl ++ t) = skipWs t :=
  skipWs_replicate_space (4 * lvl) t

theorem skipWs_idem (cs : List Char) : skipWs (skipWs cs) = skipWs cs := by
  induction cs with
  | nil => rfl
  | cons c t ih =>
    rw [skipWs_cons]
    by_cases h : c = ' ' ∨ c = '\t' ∨ c = '\n' ∨ c = '\r'
    · rw [if_pos h]
      exact ih
    · rw [if_neg h, skipWs_cons, if_neg h]

theorem digitChar_toNat {d : Nat} (h : d < 10) : (digitChar d).toNat = 48 + d :=
  char_toNat_ofNat (Or.inl (by omega))

theorem isDigitChar_digitChar {d : Nat} (h : d < 10) : isDigitChar (digitChar d) = true := by
  rw [isDigitChar, digitChar_toNat h]
  simp
  omega

theorem natToChars_all_digits (n : Nat) : ∀ c ∈ natToChars n, isDigitChar c = true := by
  induction n using Nat.strong_induction_on with
  | _ n ih =>
    rw [natToChars]
    by_cases h : n < 10
    · rw [dif_pos h]
      intro c hc
      rw [List.mem_singleton] at hc
      rw [hc]
      exact isDigitChar_digitChar h
    · rw [dif_neg h]
      intro c hc
      rcases List.mem_append.mp hc with h1 | h2
      · exact ih (n / 10) (Nat.div_lt_self (by omega) (by omega)) c h1
      · rw [List.mem_singleton] at h2
        rw [h2]
        exact isDigitChar_digitChar (Nat.mod_lt n (by omega))

theorem natToChars_ne_nil (n : Nat) : natToChars n ≠ [] := by
  rw [natToChars]
  by_cases h : n < 10
  · rw [dif_pos h]
    exact List.cons_ne_nil _ _
  · rw [dif_neg h]
    exact List.append_ne_nil_of_right_ne_nil _ (List.cons_ne_nil _ _)

theorem charsToNat_append (l₁ l₂ : List Char) :
    charsToNat (l₁ ++ l₂) = l₂.foldl (fun a c => a * 10 + (c.toNat - 48)) (charsToNat l₁) := by
  rw [charsToNat, List.foldl_append]
  rfl

theorem charsToNat_natToChars (n : Nat) : charsToNat (natToChars n) = n := by
  induction n using Nat.strong_induction_on with
  | _ n ih =>
    rw [natToChars]
    by_cases h : n < 10
    · rw [dif_pos h]
      show 0 * 10 + ((digitChar n).toNat - 48) = n
      rw [digitChar_toNat h]
      omega
    · rw [dif_neg h, charsToNat_append, ih (n / 10) (Nat.div_lt_self (by omega) (by omega))]
      show n / 10 * 10 + ((digitChar (n % 10)).toNat - 48) = n
      rw [digitChar_toNat (Nat.mod_lt n (by omega))]
      omega

theorem takeWhile_all_append {p : Char → Bool} (l t : List Char)
    (hl : ∀ c ∈ l, p c = true) (ht : ∀ c, t.head? = some c → p c = false) :
    (l ++ t).takeWhile p = l ∧ (l ++ t).dropWhile p = t := by
  induction l with
  | nil =>
    simp only [List.nil_append]
    cases t with
    | nil => exact ⟨rfl, rfl⟩
    | cons c r =>
      rw [List.takeWhile_cons, List.dropWhile_cons, ht c rfl]
      exact ⟨rfl, rfl⟩
  | cons c l ih =>
    have hc : p c = true := hl c (List.mem_cons_self _ _)
    have hrest := ih (fun d hd => hl d (List.mem_cons_of_mem _ hd))
    rw [List.cons_append, List.takeWhile_cons, List.dropWhile_cons, hc]
    simp only [if_true]
    exact ⟨by rw [hrest.1], hrest.2⟩

/-- Continuations that can follow a serialized value inside a json.dump
document: nothing (end of file), a separating comma, or the newline that
precedes the closing bracket line. -/
def stopperP : List Char → Prop
  | [] => True
  | c :: _ => c = ',' ∨ c = '\n'

theorem stopper_not_digit {t : List Char} (hs : stopperP t) :
    ∀ c, t.head? = some c → isDigitChar c = false := by
  intro c hc
  cases t with
  | nil => simp at hc
  | cons d r =>
    rw [List.head?_cons, Option.some.injEq] at hc
    rw [← hc]
    rcases hs with h | h
    · rw [h]
      rfl
    · rw [h]
      rfl

theorem parseNum_cons (c : Char) (rest : List Char) :
    parseNum (c :: rest) =
      if c = '-' then
        let ds := rest.takeWhile isDigitChar
        if ds.isEmpty then none
        else some (.num (-(charsToNat ds : Int)), rest.dropWhile isDigitChar)
      else
        let ds := (c :: rest).takeWhile isDigitChar
        if ds.isEmpty then none
        else some (.num ((charsToNat ds : Nat) : Int), (c :: rest).dropWhile isDigitChar) := rfl

theorem parseNum_round (n : Int) (t : List Char) (hs : stopperP t) :
    parseNum (intToChars n ++ t) = some (.num n, t) := by
  cases n with
  | ofNat m =>
    show parseNum (natToChars m ++ t) = some (.num (Int.ofNat m), t)
    cases hnc : natToChars m with
    | nil => exact absurd hnc (natToChars_ne_nil m)
    | cons c l =>
      have hdig : ∀ d ∈ c :: l, isDigitChar d = true := by
        rw [← hnc]
        exact natToChars_all_digits m
      have hcd : isDigitChar c = true := hdig c (List.mem_cons_self _ _)
      have hne : c ≠ '-' := by
        apply char_ne_of_toNat_ne
        rw [isDigitChar] at hcd
        simp at hcd
        have h45 : ('-').toNat = 45 := rfl
        omega
      rw [List.cons_append, parseNum_cons, if_neg hne]
      have hsplit := takeWhile_all_append (p := isDigitChar) (c :: l) t hdig
        (stopper_not_digit hs)
      rw [← List.cons_append, hsplit.1, hsplit.2]
      simp only [List.isEmpty_cons, if_false, Bool.false_eq_true]
      rw [← hnc, charsToNat_natToChars]
      rfl
  | negSucc m =>
    show parseNum ('-' :: natToChars (m + 1) ++ t) = some (.num (Int.negSucc m), t)
    rw [List.cons_append, parseNum_cons, if_pos rfl]
    have hsplit := takeWhile_all_append (p := isDigitChar) (natToChars (m + 1)) t
      (natToChars_all_digits (m + 1)) (stopper_not_digit hs)
    rw [hsplit.1, hsplit.2]
    have hemp : (natToChars (m + 1)).isEmpty = false := by
      cases hnc : natToChars (m + 1) with
      | nil => exact absurd hnc (natToChars_ne_nil (m + 1))
      | cons c l => rfl
    simp only [hemp, Bool.false_eq_true, if_false, charsToNat_natToChars]
    have : -((m + 1 : Nat) : Int) = Int.negSucc m := by
      rw [Int.negSucc_eq]
      push_cast
      ring
    rw [this]

theorem hexVal_hexDigitChar {d : Nat} (h : d < 16) : hexVal (hexDigitChar d) = some d := by
  rw [hexDigitChar]
  by_cases h10 : d < 10
  · rw [if_pos h10, hexVal, char_toNat_ofNat (Or.inl (by omega)), if_pos (by omega)]
    congr 1
    omega
  · rw [if_neg h10, hexVal, char_toNat_ofNat (Or.inl (by omega)), if_neg (by omega),
      if_pos (by omega)]
    congr 1
    omega


theorem hex4_eq (n : Nat) :
    hex4 n = [hexDigitChar (n / 4096 % 16), hexDigitChar (n / 256 % 16),
      hexDigitChar (n / 16 % 16), hexDigitChar (n % 16)] := rfl

theorem hex4Val_digits (n : Nat) (h : n < 65536) :
    hex4Val (hexDigitChar (n / 4096 % 16)) (hexDigitChar (n / 256 % 16))
      (hexDigitChar (n / 16 % 16)) (hexDigitChar (n % 16)) = some n := by
  rw [hex4Val, hexVal_hexDigitChar (show n / 4096 % 16 < 16 by omega),
    hexVal_hexDigitChar (show n / 256 % 16 < 16 by omega),
    hexVal_hexDigitChar (show n / 16 % 16 < 16 by omega),
    hexVal_hexDigitChar (show n % 16 < 16 by omega)]
  show some _ = some n
  congr 1
  omega

theorem parseEscape_u_eq (r : List Char) : parseEscape ('u' :: r) = parseUEscape r := rfl

theorem parseUEscape_four (h1 h2 h3 h4 : Char) (r₂ : List Char) :
    parseUEscape (h1 :: h2 :: h3 :: h4 :: r₂) =
      (match hex4Val h1 h2 h3 h4 with
      | none => none
      | some n =>
        if 55296 ≤ n ∧ n ≤ 56319 then
          match r₂ with
          | b1 :: b2 :: g1 :: g2 :: g3 :: g4 :: r₃ =>
            if b1 = '\\' ∧ b2 = 'u' then
              match hex4Val g1 g2 g3 g4 with
              | some m =>
                if 56320 ≤ m ∧ m ≤ 57343 then
                  some (Char.ofNat (65536 + (n - 55296) * 1024 + (m - 56320)), r₃)
                else some (Char.ofNat n, b1 :: b2 :: g1 :: g2 :: g3 :: g4 :: r₃)
              | none => some (Char.ofNat n, b1 :: b2 :: g1 :: g2 :: g3 :: g4 :: r₃)
            else some (Char.ofNat n, b1 :: b2 :: g1 :: g2 :: g3 :: g4 :: r₃)
          | r₄ => some (Char.ofNat n, r₄)
        else some (Char.ofNat n, r₂)) := rfl

theorem parseEscape_u {c : Char} (t : List Char) (h9 : c.toNat < 65536)
    (hns : ¬(55296 ≤ c.toNat ∧ c.toNat ≤ 56319)) :
    parseEscape ('u' :: (hex4 c.toNat ++ t)) = some (Char.ofNat c.toNat, t) := by
  rw [parseEscape_u_eq, hex4_eq]
  simp only [List.cons_append, List.nil_append]
  rw [parseUEscape_four, hex4Val_digits c.toNat h9]
  simp [hns]

theorem parseEscape_surrogate {c : Char} (t : List Char) (h9 : 65536 ≤ c.toNat) :
    parseEscape ('u' :: (hex4 (55296 + (c.toNat - 65536) / 1024) ++
      '\\' :: 'u' :: (hex4 (56320 + (c.toNat - 65536) % 1024) ++ t))) = some (c, t) := by
  have hlt : c.toNat < 1114112 := by
    rcases char_valid_nat c with h | h
    · omega
    · omega
  set hi : Nat := 55296 + (c.toNat - 65536) / 1024 with hhi
  set lo : Nat := 56320 + (c.toNat - 65536) % 1024 with hlo
  have hbhi : hi < 65536 := by omega
  have hblo : lo < 65536 := by omega
  rw [parseEscape_u_eq, hex4_eq hi, hex4_eq lo]
  simp only [List.cons_append, List.nil_append]
  rw [parseUEscape_four, hex4Val_digits hi hbhi]
  have hr1 : 55296 ≤ hi := by omega
  have hr2 : hi ≤ 56319 := by omega
  have hr3 : 56320 ≤ lo := by omega
  have hr4 : lo ≤ 57343 := by omega
  have hcomb : 65536 + (hi - 55296) * 1024 + (lo - 56320) = c.toNat := by omega
  simp [hr1, hr2, hr3, hr4, hex4Val_digits lo hblo, hcomb, Char.ofNat_toNat]

theorem escapeChar_ne_nil (c : Char) : escapeChar c ≠ [] := by
  rw [escapeChar]
  split_ifs <;> simp

theorem escapeString_length_ge (s : List Char) : s.length ≤ (escapeString s).length := by
  induction s with
  | nil => simp [escapeString]
  | cons c s ih =>
    show (c :: s).length ≤ (escapeChar c ++ escapeString s).length
    rw [List.length_append, List.length_cons]
    have hpos : 1 ≤ (escapeChar c).length := by
      cases he : escapeChar c with
      | nil => exact absurd he (escapeChar_ne_nil c)
      | cons a t => simp
    omega

theorem parseStringFuel_succ (fuel : Nat) (c : Char) (rest : List Char) :
    parseStringFuel (fuel + 1) (c :: rest) =
      (if c = '"' then some ([], rest)
      else if c = '\\' then
        match parseEscape rest with
        | none => none
        | some (d, r) => (parseStringFuel fuel r).map (fun p => (d :: p.1, p.2))
      else (parseStringFuel fuel rest).map (fun p => (c :: p.1, p.2))) := rfl

theorem parseStringFuel_round (s : List Char) : ∀ (fuel : Nat) (rest : List Char),
    s.length < fuel →
    parseStringFuel fuel (escapeString s ++ '"' :: rest) = some (s, rest) := by
  induction s with
  | nil =>
    intro fuel rest hf
    cases fuel with
    | zero => omega
    | succ f =>
      show parseStringFuel (f + 1) ('"' :: rest) = some ([], rest)
      rw [parseStringFuel_succ, if_pos rfl]
  | cons c s ih =>
    intro fuel rest hf
    cases fuel with
    | zero => omega
    | succ f =>
      have hs : s.length < f := by
        rw [List.length_cons] at hf
        omega
      have ihf := ih f rest hs
      show parseStringFuel (f + 1) (escapeChar c ++ escapeString s ++ '"' :: rest)
          = some (c :: s, rest)
      rw [escapeChar]
      by_cases h1 : c = '"'
      · rw [if_pos h1]
        simp only [List.cons_append, List.nil_append]
        rw [parseStringFuel_succ, if_neg (by decide), if_pos rfl]
        show (parseStringFuel f (escapeString s ++ '"' :: rest)).map _ = _
        rw [ihf, h1]
        rfl
      · rw [if_neg h1]
        by_cases h2 : c = '\\'
        · rw [if_pos h2]
          simp only [List.cons_append, List.nil_append]
          rw [parseStringFuel_succ, if_neg (by decide), if_pos rfl]
          show (parseStringFuel f (escapeString s ++ '"' :: rest)).map _ = _
          rw [ihf, h2]
          rfl
        · rw [if_neg h2]
          by_cases h3 : c = '\n'
          · rw [if_pos h3]
            simp only [List.cons_append, List.nil_append]
            rw [parseStringFuel_succ, if_neg (by decide), if_pos rfl]
            show (parseStringFuel f (escapeString s ++ '"' :: rest)).map _ = _
            rw [ihf, h3]
            rfl
          · rw [if_neg h3]
            by_cases h4 : c = '\r'
            · rw [if_pos h4]
              simp only [List.cons_append, List.nil_append]
              rw [parseStringFuel_succ, if_neg (by decide), if_pos rfl]
              show (parseStringFuel f (escapeString s ++ '"' :: rest)).map _ = _
              rw [ihf, h4]
              rfl
            · rw [if_neg h4]
              by_cases h5 : c = '\t'
              · rw [if_pos h5]
                simp only [List.cons_append, List.nil_append]
                rw [parseStringFuel_succ, if_neg (by decide), if_pos rfl]
                show (parseStringFuel f (escapeString s ++ '"' :: rest)).map _ = _
                rw [ihf, h5]
                rfl
              · rw [if_neg h5]
                by_cases h6 : c = '\x08'
                · rw [if_pos h6]
                  simp only [List.cons_append, List.nil_append]
                  rw [parseStringFuel_succ, if_neg (by decide), if_pos rfl]
                  show (parseStringFuel f (escapeString s ++ '"' :: rest)).map _ = _
                  rw [ihf, h6]
                  rfl
                · rw [if_neg h6]
                  by_cases h7 : c = '\x0c'
                  · rw [if_pos h7]
                    simp only [List.cons_append, List.nil_append]
                    rw [parseStringFuel_succ, if_neg (by decide), if_pos rfl]
                    show (parseStringFuel f (escapeString s ++ '"' :: rest)).map _ = _
                    rw [ihf, h7]
                    rfl
                  · rw [if_neg h7]
                    by_cases h8 : 32 ≤ c.toNat ∧ c.toNat ≤ 126
                    · rw [if_pos h8]
                      simp only [List.cons_append, List.nil_append]
                      rw [parseStringFuel_succ, if_neg h1, if_neg h2, ihf]
                      rfl
                    · rw [if_neg h8]
                      by_cases h9 : c.toNat < 65536
                      · rw [if_pos h9]
                        simp only [List.cons_append, List.nil_append, List.append_assoc]
                        rw [parseStringFuel_succ, if_neg (by decide), if_pos rfl]
                        have hns : ¬(55296 ≤ c.toNat ∧ c.toNat ≤ 56319) := by
                          rcases char_valid_nat c with h | h
                          · omega
                          · omega
                        rw [parseEscape_u (escapeString s ++ '"' :: rest) h9 hns]
                        show (parseStringFuel f (escapeString s ++ '"' :: rest)).map _ = _
                        rw [ihf]
                        simp [Char.ofNat_toNat]
                      · rw [if_neg h9]
                        simp only [List.cons_append, List.nil_append, List.append_assoc]
                        rw [parseStringFuel_succ, if_neg (by decide), if_pos rfl]
                        rw [parseEscape_surrogate (escapeString s ++ '"' :: rest) (by omega)]
                        show (parseStringFuel f (escapeString s ++ '"' :: rest)).map _ = _
                        rw [ihf]
                        rfl

theorem parseStringBody_round (s rest : List Char) :
    parseStringBody (escapeString s ++ '"' :: rest) = some (s, rest) := by
  rw [parseStringBody]
  apply parseStringFuel_round
  have h := escapeString_length_ge s
  rw [List.length_append, List.length_cons]
  omega

theorem parseVal_succ (fuel : Nat) (cs : List Char) :
    parseVal (fuel + 1) cs =
      (match skipWs cs with
      | [] => none
      | c :: rest =>
        if c = 'n' then (expect ['u', 'l', 'l'] rest).map (fun r => (.null, r))
        else if c = 't' then (expect ['r', 'u', 'e'] rest).map (fun r => (.bool true, r))
        else if c = 'f' then
          (expect ['a', 'l', 's', 'e'] rest).map (fun r => (.bool false, r))
        else if c = '"' then
          (parseStringBody rest).map (fun p => (.str (String.mk p.1), p.2))
        else if c = '[' then
          match skipWs rest with
          | [] => none
          | c₂ :: rest₂ =>
            if c₂ = ']' then some (.arr [], rest₂)
            else (parseElems fuel (c₂ :: rest₂)).map (fun p => (.arr p.1, p.2))
        else if c = '\x7b' then
          match skipWs rest with
          | [] => none
          | c₂ :: rest₂ =>
            if c₂ = '\x7d' then some (.obj [], rest₂)
            else (parseMembers fuel (c₂ :: rest₂)).map
              (fun p => (.obj (dictOfList p.1), p.2))
        else parseNum (c :: rest)) := rfl

theorem parseElems_succ (fuel : Nat) (cs : List Char) :
    parseElems (fuel + 1) cs =
      (match parseVal fuel cs with
      | none => none
      | some (v, cs₁) =>
        match skipWs cs₁ with
        | [] => none
        | c :: r =>
          if c = ',' then
            match parseElems fuel r with
            | none => none
            | some (vs, rest) => some (v :: vs, rest)
          else if c = ']' then some ([v], r)
          else none) := rfl

theorem parseMembers_succ (fuel : Nat) (cs : List Char) :
    parseMembers (fuel + 1) cs =
      (match skipWs cs with
      | [] => none
      | c :: r₁ =>
        if c = '"' then
          match parseStringBody r₁ with
          | none => none
          | some (kChars, r₂) =>
            match skipWs r₂ with
            | [] => none
            | c₂ :: r₃ =>
              if c₂ = ':' then
                match parseVal fuel r₃ with
                | none => none
                | some (v, r₄) =>
                  match skipWs r₄ with
                  | [] => none
                  | c₃ :: r₅ =>
                    if c₃ = ',' then
                      match parseMembers fuel r₅ with
                      | none => none
                      | some (kvs, rest) => some ((String.mk kChars, v) :: kvs, rest)
                    else if c₃ = '\x7d' then some ([(String.mk kChars, v)], r₅)
                    else none
              else none
        else none) := rfl

theorem parseVal_skipWs (fuel : Nat) (cs : List Char) :
    parseVal fuel (skipWs cs) = parseVal fuel cs := by
  cases fuel with
  | zero => rfl
  | succ g => rw [parseVal_succ, parseVal_succ, skipWs_idem]

theorem parseElems_skipWs (fuel : Nat) (cs : List Char) :
    parseElems fuel (skipWs cs) = parseElems fuel cs := by
  cases fuel with
  | zero => rfl
  | succ g => rw [parseElems_succ, parseElems_succ, parseVal_skipWs]

theorem parseMembers_skipWs (fuel : Nat) (cs : List Char) :
    parseMembers fuel (skipWs cs) = parseMembers fuel cs := by
  cases fuel with
  | zero => rfl
  | succ g => rw [parseMembers_succ, parseMembers_succ, skipWs_idem]

theorem natToChars_head_digit (n : Nat) :
    ∃ c t, natToChars n = c :: t ∧ 48 ≤ c.toNat ∧ c.toNat ≤ 57 := by
  cases hnc : natToChars n with
  | nil => exact absurd hnc (natToChars_ne_nil n)
  | cons c t =>
    have hc := natToChars_all_digits n c (by rw [hnc]; exact List.mem_cons_self c t)
    rw [isDigitChar] at hc
    simp at hc
    exact ⟨c, t, rfl, hc.1, hc.2⟩

theorem intToChars_head (n : Int) :
    ∃ c t, intToChars n = c :: t ∧ ((48 ≤ c.toNat ∧ c.toNat ≤ 57) ∨ c.toNat = 45) := by
  cases n with
  | ofNat m =>
    obtain ⟨c, t, heq, h1, h2⟩ := natToChars_head_digit m
    exact ⟨c, t, heq, Or.inl ⟨h1, h2⟩⟩
  | negSucc m => exact ⟨'-', natToChars (m + 1), rfl, Or.inr rfl⟩

/-- Every serialized JSON value starts with a digit, a minus sign, or one
of n, t, f, a double quote, an opening bracket or an opening brace. -/
theorem dumpVal_head (lvl : Nat) (j : Json) :
    ∃ c t, dumpVal lvl j = c :: t ∧
      ((48 ≤ c.toNat ∧ c.toNat ≤ 57) ∨ c.toNat = 45 ∨ c.toNat = 110 ∨ c.toNat = 116 ∨
        c.toNat = 102 ∨ c.toNat = 34 ∨ c.toNat = 91 ∨ c.toNat = 123) := by
  cases j with
  | null => exact ⟨'n', _, by rw [dumpVal], Or.inr (Or.inr (Or.inl rfl))⟩
  | bool b =>
    cases b with
    | true => exact ⟨'t', _, by rw [dumpVal], Or.inr (Or.inr (Or.inr (Or.inl rfl)))⟩
    | false =>
      exact ⟨'f', _, by rw [dumpVal], Or.inr (Or.inr (Or.inr (Or.inr (Or.inl rfl))))⟩
  | num n =>
    obtain ⟨c, t, heq, hc⟩ := intToChars_head n
    refine ⟨c, t, ?_, ?_⟩
    · rw [dumpVal, heq]
    · rcases hc with h | h
      · exact Or.inl h
      · exact Or.inr (Or.inl h)
  | str s =>
    exact ⟨'"', escapeString s.data ++ ['"'], by rw [dumpVal, List.cons_append],
      Or.inr (Or.inr (Or.inr (Or.inr (Or.inr (Or.inl rfl)))))⟩
  | arr xs =>
    cases xs with
    | nil =>
      exact ⟨'[', [']'], by rw [dumpVal],
        Or.inr (Or.inr (Or.inr (Or.inr (Or.inr (Or.inr (Or.inl rfl))))))⟩
    | cons x rest =>
      exact ⟨'[', dumpElems (lvl + 1) x rest ++ '\n' :: indentChars lvl ++ [']'],
        by rw [dumpVal]; simp [List.cons_append, List.append_assoc],
        Or.inr (Or.inr (Or.inr (Or.inr (Or.inr (Or.inr (Or.inl rfl))))))⟩
  | obj kvs =>
    cases kvs with
    | nil =>
      exact ⟨'\x7b', ['\x7d'], by rw [dumpVal],
        Or.inr (Or.inr (Or.inr (Or.inr (Or.inr (Or.inr (Or.inr rfl))))))⟩
    | cons kv rest =>
      exact ⟨'\x7b', dumpMembers (lvl + 1) kv rest ++ '\n' :: indentChars lvl ++ ['\x7d'],
        by rw [dumpVal]; simp [List.cons_append, List.append_assoc],
        Or.inr (Or.inr (Or.inr (Or.inr (Or.inr (Or.inr (Or.inr rfl))))))⟩

theorem skipWs_dumpVal (lvl : Nat) (j : Json) (t : List Char) :
    skipWs (dumpVal lvl j ++ t) = dumpVal lvl j ++ t := by
  obtain ⟨c, t₀, heq, hc⟩ := dumpVal_head lvl j
  rw [heq, List.cons_append, skipWs_cons, if_neg]
  intro hws
  have h32 : (' ').toNat = 32 := rfl
  have h9 : ('\t').toNat = 9 := rfl
  have h10 : ('\n').toNat = 10 := rfl
  have h13 : ('\x0d').toNat = 13 := rfl
  rcases hws with h | h | h | h <;> rw [h] at hc <;> omega

theorem dictInsert_of_not_mem {α : Type} (k : String) (v : α) (acc : List (String × α))
    (h : k ∉ dictKeys acc) : dictInsert k v acc = acc ++ [(k, v)] := by
  induction acc with
  | nil => rfl
  | cons hd tl ih =>
    obtain ⟨k₁, v₁⟩ := hd
    simp only [dictKeys, List.map_cons, List.mem_cons] at h
    push_neg at h
    rw [dictInsert_cons, if_neg (fun he => h.1 he.symm), List.cons_append]
    rw [ih h.2]

theorem foldl_dictInsert_append {α : Type} (l : List (String × α)) :
    ∀ acc : List (String × α), (dictKeys l).Nodup →
    (∀ k ∈ dictKeys l, k ∉ dictKeys acc) →
    l.foldl (fun acc kv => dictInsert kv.1 kv.2 acc) acc = acc ++ l := by
  induction l with
  | nil =>
    intro acc hnd hdisj
    simp
  | cons hd tl ih =>
    intro acc hnd hdisj
    obtain ⟨k, v⟩ := hd
    simp only [dictKeys, List.map_cons, List.nodup_cons] at hnd
    rw [List.foldl_cons]
    rw [show dictInsert (k, v).1 (k, v).2 acc = dictInsert k v acc from rfl]
    rw [dictInsert_of_not_mem k v acc (hdisj k (by simp [dictKeys]))]
    rw [ih (acc ++ [(k, v)]) hnd.2 ?_]
    · simp
    · intro k₁ hk₁
      have hne : k₁ ≠ k := fun he => hnd.1 (he ▸ hk₁)
      have hnacc : k₁ ∉ dictKeys acc :=
        hdisj k₁ (by simp only [dictKeys, List.map_cons]; exact List.mem_cons_of_mem _ hk₁)
      simp only [dictKeys, List.map_append, List.mem_append]
      push_neg
      refine ⟨hnacc, ?_⟩
      simp [hne]

theorem dictOfList_eq_self {α : Type} (l : List (String × α))
    (hnd : (dictKeys l).Nodup) : dictOfList l = l := by
  rw [dictOfList, foldl_dictInsert_append l [] hnd (by simp [dictKeys])]
  rfl

theorem jsonFuel_pos (j : Json) : 1 ≤ jsonFuel j := by
  cases j with
  | null => rw [jsonFuel]
  | bool b => rw [jsonFuel]
  | num n => rw [jsonFuel]
  | str s => rw [jsonFuel]
  | arr xs =>
    cases xs with
    | nil => rw [jsonFuel]
    | cons x rest => rw [jsonFuel]; omega
  | obj kvs =>
    cases kvs with
    | nil => rw [jsonFuel]
    | cons kv rest => rw [jsonFuel]; omega

theorem elemsFuel_pos (x : Json) (xs : List Json) : 1 ≤ elemsFuel x xs := by
  cases xs with
  | nil => rw [elemsFuel]; omega
  | cons y ys => rw [elemsFuel]; omega

theorem membersFuel_pos (kv : String × Json) (kvs : List (String × Json)) :
    1 ≤ membersFuel kv kvs := by
  obtain ⟨k, v⟩ := kv
  cases kvs with
  | nil => rw [membersFuel]; omega
  | cons kv₁ rest => rw [membersFuel]; omega

theorem string_mk_data (s : String) : String.mk s.data = s := rfl

theorem parseVal_succ_quote (fuel : Nat) (rest : List Char) :
    parseVal (fuel + 1) ('"' :: rest) =
      (parseStringBody rest).map (fun p => (Json.str (String.mk p.1), p.2)) := rfl

theorem parseVal_succ_lbracket (fuel : Nat) (rest : List Char) :
    parseVal (fuel + 1) ('[' :: rest) =
      (match skipWs rest with
      | [] => none
      | c₂ :: rest₂ =>
        if c₂ = ']' then some (.arr [], rest₂)
        else (parseElems fuel (c₂ :: rest₂)).map (fun p => (.arr p.1, p.2))) := rfl

theorem parseVal_succ_lbracket_cons (fuel : Nat) (rest : List Char) (c₂ : Char)
    (r₂ : List Char) (h : skipWs rest = c₂ :: r₂) :
    parseVal (fuel + 1) ('[' :: rest) =
      (if c₂ = ']' then some (.arr [], r₂)
      else (parseElems fuel (c₂ :: r₂)).map (fun p => (.arr p.1, p.2))) := by
  rw [parseVal_succ_lbracket, h]

theorem parseVal_succ_lbrace (fuel : Nat) (rest : List Char) :
    parseVal (fuel + 1) ('\x7b' :: rest) =
      (match skipWs rest with
      | [] => none
      | c₂ :: rest₂ =>
        if c₂ = '\x7d' then some (.obj [], rest₂)
        else (parseMembers fuel (c₂ :: rest₂)).map
          (fun p => (.obj (dictOfList p.1), p.2))) := rfl

theorem parseVal_succ_lbrace_cons (fuel : Nat) (rest : List Char) (c₂ : Char)
    (r₂ : List Char) (h : skipWs rest = c₂ :: r₂) :
    parseVal (fuel + 1) ('\x7b' :: rest) =
      (if c₂ = '\x7d' then some (.obj [], r₂)
      else (parseMembers fuel (c₂ :: r₂)).map (fun p => (.obj (dictOfList p.1), p.2))) := by
  rw [parseVal_succ_lbrace, h]

theorem parseVal_succ_cons (fuel : Nat) (c : Char) (rest : List Char)
    (hnws : ¬(c = ' ' ∨ c = '\t' ∨ c = '\n' ∨ c = '\r')) :
    parseVal (fuel + 1) (c :: rest) =
      (if c = 'n' then (expect ['u', 'l', 'l'] rest).map (fun r => (.null, r))
      else if c = 't' then (expect ['r', 'u', 'e'] rest).map (fun r => (.bool true, r))
      else if c = 'f' then
        (expect ['a', 'l', 's', 'e'] rest).map (fun r => (.bool false, r))
      else if c = '"' then
        (parseStringBody rest).map (fun p => (.str (String.mk p.1), p.2))
      else if c = '[' then
        match skipWs rest with
        | [] => none
        | c₂ :: rest₂ =>
          if c₂ = ']' then some (.arr [], rest₂)
          else (parseElems fuel (c₂ :: rest₂)).map (fun p => (.arr p.1, p.2))
      else if c = '\x7b' then
        match skipWs rest with
        | [] => none
        | c₂ :: rest₂ =>
          if c₂ = '\x7d' then some (.obj [], rest₂)
          else (parseMembers fuel (c₂ :: rest₂)).map
            (fun p => (.obj (dictOfList p.1), p.2))
      else parseNum (c :: rest)) := by
  rw [parseVal_succ, skipWs_cons, if_neg hnws]

theorem parseElems_succ_step (fuel : Nat) (cs : List Char) (v : Json) (cs₁ : List Char)
    (c : Char) (r : List Char) (h1 : parseVal fuel cs = some (v, cs₁))
    (h2 : skipWs cs₁ = c :: r) :
    parseElems (fuel + 1) cs =
      (if c = ',' then
        match parseElems fuel r with
        | none => none
        | some (vs, rest) => some (v :: vs, rest)
      else if c = ']' then some ([v], r)
      else none) := by
  rw [parseElems_succ, h1]
  dsimp only
  rw [h2]

theorem parseMembers_succ_step (fuel : Nat) (cs : List Char) (kChars : List Char)
    (r₁ r₂ r₃ : List Char) (v : Json) (r₄ : List Char) (c₃ : Char) (r₅ : List Char)
    (h0 : skipWs cs = '"' :: r₁)
    (h1 : parseStringBody r₁ = some (kChars, r₂))
    (h2 : skipWs r₂ = ':' :: r₃)
    (h3 : parseVal fuel r₃ = some (v, r₄))
    (h4 : skipWs r₄ = c₃ :: r₅) :
    parseMembers (fuel + 1) cs =
      (if c₃ = ',' then
        match parseMembers fuel r₅ with
        | none => none
        | some (kvs, rest) => some ((String.mk kChars, v) :: kvs, rest)
      else if c₃ = '\x7d' then some ([(String.mk kChars, v)], r₅)
      else none) := by
  rw [parseMembers_succ, h0]
  dsimp only
  rw [if_pos rfl, h1]
  dsimp only
  rw [h2]
  dsimp only
  rw [if_pos rfl, h3]
  dsimp only
  rw [h4]

/-- Suffix of an array body after the first serialized element. -/
def elemsSuffix (lvl : Nat) (xs : List Json) (t : List Char) : List Char :=
  match xs with
  | [] => t
  | y :: ys => ',' :: (dumpElems lvl y ys ++ t)

theorem skipWs_dumpElems (lvl : Nat) (x : Json) (xs : List Json) (t : List Char) :
    skipWs (dumpElems lvl x xs ++ t) = dumpVal lvl x ++ elemsSuffix lvl xs t := by
  cases xs with
  | nil =>
    rw [dumpElems, elemsSuffix]
    simp only [List.cons_append, List.append_assoc]
    rw [skipWs_cons, if_pos (by decide), skipWs_indent, skipWs_dumpVal]
  | cons y ys =>
    rw [dumpElems, elemsSuffix]
    simp only [List.cons_append, List.append_assoc]
    rw [skipWs_cons, if_pos (by decide), skipWs_indent, skipWs_dumpVal]

/-- Suffix of an object body after the first serialized member. -/
def membersSuffix (lvl : Nat) (kvs : List (String × Json)) (t : List Char) : List Char :=
  match kvs with
  | [] => t
  | kv :: rest => ',' :: (dumpMembers lvl kv rest ++ t)

theorem skipWs_dumpMembers (lvl : Nat) (k : String) (v : Json)
    (kvs : List (String × Json)) (t : List Char) :
    skipWs (dumpMembers lvl (k, v) kvs ++ t) =
      '"' :: (escapeString k.data ++ '"' :: ':' :: ' ' ::
        (dumpVal lvl v ++ membersSuffix lvl kvs t)) := by
  cases kvs with
  | nil =>
    rw [dumpMembers, membersSuffix]
    simp only [List.cons_append, List.append_assoc]
    rw [skipWs_cons, if_pos (by decide), skipWs_indent]
    rw [skipWs_cons, if_neg (by decide)]
  | cons kv rest =>
    rw [dumpMembers, membersSuffix]
    simp only [List.cons_append, List.append_assoc]
    rw [skipWs_cons, if_pos (by decide), skipWs_indent]
    rw [skipWs_cons, if_neg (by decide)]

theorem jsonListWf_cons {x : Json} {xs : List Json} (h : jsonListWf (x :: xs) = true) :
    jsonWf x = true ∧ jsonListWf xs = true := by
  rw [jsonListWf, Bool.and_eq_true] at h
  exact h

theorem jsonMembersWf_cons {kv : String × Json} {kvs : List (String × Json)}
    (h : jsonMembersWf (kv :: kvs) = true) :
    jsonWf kv.2 = true ∧ jsonMembersWf kvs = true := by
  obtain ⟨k, v⟩ := kv
  rw [jsonMembersWf, Bool.and_eq_true] at h
  exact h

theorem jsonWf_arr {xs : List Json} (h : jsonWf (.arr xs) = true) :
    jsonListWf xs = true := by
  rw [jsonWf] at h
  exact h

theorem jsonWf_obj {kvs : List (String × Json)} (h : jsonWf (.obj kvs) = true) :
    (kvs.map Prod.fst).Nodup ∧ jsonMembersWf kvs = true := by
  rw [jsonWf, Bool.and_eq_true] at h
  exact ⟨of_decide_eq_true h.1, h.2⟩

theorem json_sizeOf_pos (j : Json) : 1 ≤ sizeOf j := by
  cases j <;> simp <;> omega

theorem indentChars_length (lvl : Nat) : (indentChars lvl).length = 4 * lvl := by
  rw [indentChars, List.length_replicate]

theorem fuel_le_dump : ∀ N : Nat,
    (∀ j : Json, sizeOf j ≤ N → ∀ lvl : Nat, jsonFuel j ≤ (dumpVal lvl j).length) ∧
    (∀ (x : Json) (xs : List Json), sizeOf x + sizeOf xs ≤ N → ∀ lvl : Nat,
      elemsFuel x xs ≤ (dumpElems lvl x xs).length) ∧
    (∀ (k : String) (v : Json) (kvs : List (String × Json)),
      sizeOf v + sizeOf kvs ≤ N → ∀ lvl : Nat,
      membersFuel (k, v) kvs ≤ (dumpMembers lvl (k, v) kvs).length) := by
  intro N
  induction N using Nat.strong_induction_on with
  | _ N ih =>
    refine ⟨?_, ?_, ?_⟩
    · intro j hsz lvl
      cases j with
      | null =>
        rw [jsonFuel, dumpVal]
        simp
      | bool b =>
        cases b with
        | true => rw [jsonFuel, dumpVal]; simp
        | false => rw [jsonFuel, dumpVal]; simp
      | num n =>
        obtain ⟨c, t, heq, -⟩ := intToChars_head n
        rw [jsonFuel, dumpVal, heq]
        simp
      | str s =>
        rw [jsonFuel, dumpVal]
        simp
      | arr xs =>
        cases xs with
        | nil => rw [jsonFuel, dumpVal]; simp
        | cons x rest =>
          rw [jsonFuel, dumpVal]
          simp only [List.cons_append, List.length_cons, List.length_append,
            indentChars_length, List.length_nil]
          have hin : sizeOf x + sizeOf rest < N := by
            simp at hsz
            have := json_sizeOf_pos x
            omega
          have hb := (ih (sizeOf x + sizeOf rest) hin).2.1 x rest le_rfl (lvl + 1)
          omega
      | obj kvs =>
        cases kvs with
        | nil => rw [jsonFuel, dumpVal]; simp
        | cons kv rest =>
          obtain ⟨k, v⟩ := kv
          rw [jsonFuel, dumpVal]
          simp only [List.cons_append, List.length_cons, List.length_append,
            indentChars_length, List.length_nil]
          have hin : sizeOf v + sizeOf rest < N := by
            simp at hsz
            have := json_sizeOf_pos v
            omega
          have hb := (ih (sizeOf v + sizeOf rest) hin).2.2 k v rest le_rfl (lvl + 1)
          omega
    · intro x xs hsz lvl
      cases xs with
      | nil =>
        rw [elemsFuel, dumpElems]
        simp only [List.cons_append, List.length_cons, List.length_append,
          indentChars_length]
        have hin : sizeOf x < N := by
          simp at hsz
          omega
        have hb := (ih (sizeOf x) hin).1 x le_rfl lvl
        omega
      | cons y ys =>
        rw [elemsFuel, dumpElems]
        simp only [List.cons_append, List.length_cons, List.length_append,
          indentChars_length]
        have hin1 : sizeOf x < N := by
          simp at hsz
          have h1 := json_sizeOf_pos y
          omega
        have hin2 : sizeOf y + sizeOf ys < N := by
          simp at hsz
          have h1 := json_sizeOf_pos x
          omega
        have hb1 := (ih (sizeOf x) hin1).1 x le_rfl lvl
        have hb2 := (ih (sizeOf y + sizeOf ys) hin2).2.1 y ys le_rfl lvl
        omega
    · intro k v kvs hsz lvl
      cases kvs with
      | nil =>
        rw [membersFuel, dumpMembers]
        simp only [List.cons_append, List.length_cons, List.length_append,
          indentChars_length]
        have hin : sizeOf v < N := by
          simp at hsz
          omega
        have hb := (ih (sizeOf v) hin).1 v le_rfl lvl
        omega
      | cons kv₁ rest =>
        obtain ⟨k₁, v₁⟩ := kv₁
        rw [membersFuel, dumpMembers]
        simp only [List.cons_append, List.length_cons, List.length_append,
          indentChars_length]
        have hin1 : sizeOf v < N := by
          simp at hsz
          omega
        have hin2 : sizeOf v₁ + sizeOf rest < N := by
          simp at hsz
          have h1 := json_sizeOf_pos v
          omega
        have hb1 := (ih (sizeOf v) hin1).1 v le_rfl lvl
        have hb2 := (ih (sizeOf v₁ + sizeOf rest) hin2).2.2 k₁ v₁ rest le_rfl lvl
        omega

theorem jsonFuel_le_dump (j : Json) (lvl : Nat) : jsonFuel j ≤ (dumpVal lvl j).length :=
  (fuel_le_dump (sizeOf j)).1 j le_rfl lvl

theorem parse_dump : ∀ fuel : Nat,
    (∀ (j : Json) (lvl : Nat) (rest : List Char), jsonFuel j ≤ fuel → jsonWf j = true →
      stopperP rest → parseVal fuel (dumpVal lvl j ++ rest) = some (j, rest)) ∧
    (∀ (x : Json) (xs : List Json) (lvlE lvlC : Nat) (rest : List Char),
      elemsFuel x xs ≤ fuel → jsonListWf (x :: xs) = true → stopperP rest →
      parseElems fuel (dumpElems lvlE x xs ++ '\n' :: (indentChars lvlC ++ ']' :: rest))
        = some (x :: xs, rest)) ∧
    (∀ (k : String) (v : Json) (kvs : List (String × Json)) (lvlE lvlC : Nat)
      (rest : List Char),
      membersFuel (k, v) kvs ≤ fuel → jsonMembersWf ((k, v) :: kvs) = true →
      stopperP rest →
      parseMembers fuel
        (dumpMembers lvlE (k, v) kvs ++ '\n' :: (indentChars lvlC ++ '\x7d' :: rest))
        = some ((k, v) :: kvs, rest)) := by
  intro fuel
  induction fuel with
  | zero =>
    refine ⟨?_, ?_, ?_⟩
    · intro j lvl rest hf _ _
      exact absurd hf (by have := jsonFuel_pos j; omega)
    · intro x xs lvlE lvlC rest hf _ _
      exact absurd hf (by have := elemsFuel_pos x xs; omega)
    · intro k v kvs lvlE lvlC rest hf _ _
      exact absurd hf (by have := membersFuel_pos (k, v) kvs; omega)
  | succ f ihf =>
    obtain ⟨ihv, ihe, ihm⟩ := ihf
    refine ⟨?_, ?_, ?_⟩
    · intro j lvl rest hf hwf hstop
      cases j with
      | null =>
        rw [dumpVal]
        rfl
      | bool b =>
        cases b with
        | true => rw [dumpVal]; rfl
        | false => rw [dumpVal]; rfl
      | num n =>
        rw [dumpVal]
        obtain ⟨c, t, heq, hc⟩ := intToChars_head n
        rw [heq, List.cons_append]
        have h32 : (' ').toNat = 32 := rfl
        have h9 : ('\t').toNat = 9 := rfl
        have h10 : ('\n').toNat = 10 := rfl
        have h13 : ('\x0d').toNat = 13 := rfl
        have hn' : ('n').toNat = 110 := rfl
        have ht' : ('t').toNat = 116 := rfl
        have hf' : ('f').toNat = 102 := rfl
        have hq' : ('"').toNat = 34 := rfl
        have hlb : ('[').toNat = 91 := rfl
        have hocb : ('\x7b').toNat = 123 := rfl
        have hnws : ¬(c = ' ' ∨ c = '\t' ∨ c = '\n' ∨ c = '\r') := by
          rintro (h | h | h | h) <;> rw [h] at hc <;> omega
        rw [parseVal_succ_cons f c (t ++ rest) hnws]
        rw [if_neg (char_ne_of_toNat_ne (by omega)),
          if_neg (char_ne_of_toNat_ne (by omega)),
          if_neg (char_ne_of_toNat_ne (by omega)),
          if_neg (char_ne_of_toNat_ne (by omega)),
          if_neg (char_ne_of_toNat_ne (by omega)),
          if_neg (char_ne_of_toNat_ne (by omega))]
        rw [← List.cons_append, ← heq]
        exact parseNum_round n rest hstop
      | str s =>
        rw [dumpVal]
        simp only [List.cons_append, List.append_assoc, List.nil_append]
        rw [parseVal_succ_quote, parseStringBody_round s.data rest]
        simp [string_mk_data]
      | arr xs =>
        cases xs with
        | nil =>
          rw [dumpVal]
          rfl
        | cons x xs =>
          rw [dumpVal]
          simp only [List.cons_append, List.append_assoc, List.nil_append]
          have hskip := skipWs_dumpElems (lvl + 1) x xs
            ('\n' :: (indentChars lvl ++ ']' :: rest))
          obtain ⟨c₂, t₂, heq₂, hc₂⟩ := dumpVal_head (lvl + 1) x
          rw [heq₂, List.cons_append] at hskip
          rw [parseVal_succ_lbracket_cons f _ c₂ _ hskip]
          have hrb : (']').toNat = 93 := rfl
          rw [if_neg (char_ne_of_toNat_ne (by omega))]
          rw [← List.cons_append, ← heq₂]
          rw [show dumpVal (lvl + 1) x ++
              elemsSuffix (lvl + 1) xs ('\n' :: (indentChars lvl ++ ']' :: rest))
              = skipWs (dumpElems (lvl + 1) x xs ++
                '\n' :: (indentChars lvl ++ ']' :: rest)) from by rw [skipWs_dumpElems]]
          rw [parseElems_skipWs]
          have hfe : elemsFuel x xs ≤ f := by
            rw [jsonFuel] at hf
            omega
          rw [ihe x xs (lvl + 1) lvl rest hfe (jsonWf_arr hwf) hstop]
          rfl
      | obj kvs =>
        cases kvs with
        | nil =>
          rw [dumpVal]
          rfl
        | cons kv kvs =>
          obtain ⟨k, v⟩ := kv
          rw [dumpVal]
          simp only [List.cons_append, List.append_assoc, List.nil_append]
          have hskip := skipWs_dumpMembers (lvl + 1) k v kvs
            ('\n' :: (indentChars lvl ++ '\x7d' :: rest))
          rw [parseVal_succ_lbrace_cons f _ '"' _ hskip]
          rw [if_neg (by decide)]
          rw [show ('"' :: (escapeString k.data ++ '"' :: ':' :: ' ' ::
              (dumpVal (lvl + 1) v ++ membersSuffix (lvl + 1) kvs
                ('\n' :: (indentChars lvl ++ '\x7d' :: rest)))))
              = skipWs (dumpMembers (lvl + 1) (k, v) kvs ++
                '\n' :: (indentChars lvl ++ '\x7d' :: rest)) from hskip.symm]
          rw [parseMembers_skipWs]
          have hfm : membersFuel (k, v) kvs ≤ f := by
            rw [jsonFuel] at hf
            omega
          obtain ⟨hnd, hmw⟩ := jsonWf_obj hwf
          rw [ihm k v kvs (lvl + 1) lvl rest hfm hmw hstop]
          have hself : dictOfList ((k, v) :: kvs) = (k, v) :: kvs :=
            dictOfList_eq_self _ hnd
          simp [hself]
    · intro x xs lvlE lvlC rest hfe hlw hstop
      obtain ⟨hwx, hwxs⟩ := jsonListWf_cons hlw
      cases xs with
      | nil =>
        have hsuf : stopperP ('\n' :: (indentChars lvlC ++ ']' :: rest)) := Or.inr rfl
        have hfx : jsonFuel x ≤ f := by
          rw [elemsFuel] at hfe
          omega
        have h1 : parseVal f (dumpElems lvlE x [] ++
            '\n' :: (indentChars lvlC ++ ']' :: rest))
            = some (x, '\n' :: (indentChars lvlC ++ ']' :: rest)) := by
          rw [← parseVal_skipWs f, skipWs_dumpElems, elemsSuffix]
          exact ihv x lvlE _ hfx hwx hsuf
        have h2 : skipWs ('\n' :: (indentChars lvlC ++ ']' :: rest)) = ']' :: rest := by
          rw [skipWs_cons, if_pos (by decide), skipWs_indent, skipWs_cons,
            if_neg (by decide)]
        rw [parseElems_succ_step f _ x _ ']' rest h1 h2]
        rw [if_neg (by decide), if_pos rfl]
      | cons y ys =>
        have hsuf : stopperP (elemsSuffix lvlE (y :: ys)
            ('\n' :: (indentChars lvlC ++ ']' :: rest))) := Or.inl rfl
        have hfx : jsonFuel x ≤ f := by
          rw [elemsFuel] at hfe
          omega
        have hfyys : elemsFuel y ys ≤ f := by
          rw [elemsFuel] at hfe
          omega
        have h1 : parseVal f (dumpElems lvlE x (y :: ys) ++
            '\n' :: (indentChars lvlC ++ ']' :: rest))
            = some (x, elemsSuffix lvlE (y :: ys)
              ('\n' :: (indentChars lvlC ++ ']' :: rest))) := by
          rw [← parseVal_skipWs f, skipWs_dumpElems]
          exact ihv x lvlE _ hfx hwx hsuf
        have h2 : skipWs (elemsSuffix lvlE (y :: ys)
            ('\n' :: (indentChars lvlC ++ ']' :: rest)))
            = ',' :: (dumpElems lvlE y ys ++ '\n' :: (indentChars lvlC ++ ']' :: rest)) := by
          rw [elemsSuffix, skipWs_cons, if_neg (by decide)]
        rw [parseElems_succ_step f _ x _ ',' _ h1 h2]
        rw [if_pos rfl]
        rw [ihe y ys lvlE lvlC rest hfyys hwxs hstop]
    · intro k v kvs lvlE lvlC rest hfm hmw hstop
      obtain ⟨hwv, hwkvs⟩ := jsonMembersWf_cons hmw
      have h0 : skipWs (dumpMembers lvlE (k, v) kvs ++
          '\n' :: (indentChars lvlC ++ '\x7d' :: rest))
          = '"' :: (escapeString k.data ++ '"' :: ':' :: ' ' ::
            (dumpVal lvlE v ++ membersSuffix lvlE kvs
              ('\n' :: (indentChars lvlC ++ '\x7d' :: rest)))) :=
        skipWs_dumpMembers lvlE k v kvs _
      have h1 : parseStringBody (escapeString k.data ++ '"' :: ':' :: ' ' ::
          (dumpVal lvlE v ++ membersSuffix lvlE kvs
            ('\n' :: (indentChars lvlC ++ '\x7d' :: rest))))
          = some (k.data, ':' :: ' ' :: (dumpVal lvlE v ++ membersSuffix lvlE kvs
              ('\n' :: (indentChars lvlC ++ '\x7d' :: rest)))) :=
        parseStringBody_round k.data _
      have h2 : skipWs (':' :: ' ' :: (dumpVal lvlE v ++ membersSuffix lvlE kvs
          ('\n' :: (indentChars lvlC ++ '\x7d' :: rest))))
          = ':' :: (' ' :: (dumpVal lvlE v ++ membersSuffix lvlE kvs
            ('\n' :: (indentChars lvlC ++ '\x7d' :: rest)))) := by
        rw [skipWs_cons, if_neg (by decide)]
      have hfv : jsonFuel v ≤ f := by
        cases kvs with
        | nil => rw [membersFuel] at hfm; omega
        | cons kv₁ rest₁ => rw [membersFuel] at hfm; omega
      have hsufm : stopperP (membersSuffix lvlE kvs
          ('\n' :: (indentChars lvlC ++ '\x7d' :: rest))) := by
        cases kvs with
        | nil => exact Or.inr rfl
        | cons kv₁ rest₁ => exact Or.inl rfl
      have h3 : parseVal f (' ' :: (dumpVal lvlE v ++ membersSuffix lvlE kvs
          ('\n' :: (indentChars lvlC ++ '\x7d' :: rest))))
          = some (v, membersSuffix lvlE kvs
            ('\n' :: (indentChars lvlC ++ '\x7d' :: rest))) := by
        rw [← parseVal_skipWs f, skipWs_cons, if_pos (by decide), skipWs_dumpVal]
        exact ihv v lvlE _ hfv hwv hsufm
      cases kvs with
      | nil =>
        have h4 : skipWs (membersSuffix lvlE []
            ('\n' :: (indentChars lvlC ++ '\x7d' :: rest))) = '\x7d' :: rest := by
          rw [membersSuffix, skipWs_cons, if_pos (by decide), skipWs_indent,
            skipWs_cons, if_neg (by decide)]
        rw [parseMembers_succ_step f _ k.data _ _ _ v _ '\x7d' rest h0 h1 h2 h3 h4]
        rw [if_neg (by decide), if_pos rfl, string_mk_data]
      | cons kv₁ kvs₁ =>
        obtain ⟨k₁, v₁⟩ := kv₁
        have hfm₁ : membersFuel (k₁, v₁) kvs₁ ≤ f := by
          rw [membersFuel] at hfm
          omega
        have h4 : skipWs (membersSuffix lvlE ((k₁, v₁) :: kvs₁)
            ('\n' :: (indentChars lvlC ++ '\x7d' :: rest)))
            = ',' :: (dumpMembers lvlE (k₁, v₁) kvs₁ ++
              '\n' :: (indentChars lvlC ++ '\x7d' :: rest)) := by
          rw [membersSuffix, skipWs_cons, if_neg (by decide)]
        rw [parseMembers_succ_step f _ k.data _ _ _ v _ ',' _ h0 h1 h2 h3 h4]
        rw [if_pos rfl]
        rw [ihm k₁ v₁ kvs₁ lvlE lvlC rest hfm₁ hwkvs hstop]

/-- C3: saving a manifest with json.dump(data, f, indent=4) and loading it
back with json.load returns a semantically equal manifest document:
load(save(M)) == M for every manifest object whose dicts have unique keys
(a Python dict invariant, matching unique identifiers). -/
theorem c3_manifest_round_trip (M : List (String × Json))
    (hwf : jsonWf (Json.obj M) = true) :
    json_loads (save_manifest (Json.obj M)) = some (Json.obj M) := by
  rw [json_loads, save_manifest]
  have hdata : (String.mk (dumpVal 0 (Json.obj M))).data = dumpVal 0 (Json.obj M) := rfl
  have hlen : (String.mk (dumpVal 0 (Json.obj M))).length
      = (dumpVal 0 (Json.obj M)).length := rfl
  rw [hdata, hlen]
  have hfuel : jsonFuel (Json.obj M) ≤ (dumpVal 0 (Json.obj M)).length + 1 := by
    have := jsonFuel_le_dump (Json.obj M) 0
    omega
  have h := (parse_dump ((dumpVal 0 (Json.obj M)).length + 1)).1 (Json.obj M) 0 []
    hfuel hwf trivial
  rw [List.append_nil] at h
  rw [h]
  rfl

/-- Concrete manifest for the round-trip witness: two records keyed by
their ids, as current_images_map would store them. -/
def demoManifest : List (String × Json) :=
  [("1", Json.obj [("id", Json.num 1), ("url", Json.str "https://img/1"),
      ("username", Json.str "alice")]),
   ("2", Json.obj [("id", Json.num 2), ("url", Json.str "https://img/2"),
      ("username", Json.str "alice")])]

theorem c3_manifest_round_trip_witness :
    jsonWf (Json.obj demoManifest) = true ∧
    json_loads (save_manifest (Json.obj demoManifest)) = some (Json.obj demoManifest) := by
  have hwf : jsonWf (Json.obj demoManifest) = true := by
    simp [demoManifest, jsonWf, jsonMembersWf]
  exact ⟨hwf, c3_manifest_round_trip demoManifest hwf⟩

/-- C8: a missing manifest file yields the empty manifest (first run); a
malformed manifest file makes load_manifest fail with the propagating
JSONDecodeError, is never silently read as an empty (or any) manifest, and
the run halts before any diff is computed. -/
theorem c8_malformed_manifest_fatal (s : String) (fetched : List ImageInfo)
    (hbad : json_loads s = none) :
    load_manifest FileState.missing = Except.ok (Json.obj []) ∧
    load_manifest (FileState.present s) = Except.error "JSONDecodeError" ∧
    (∀ j : Json, load_manifest (FileState.present s) ≠ Except.ok j) ∧
    main_load_and_diff (FileState.present s) fetched = Except.error "JSONDecodeError" := by
  have herr : load_manifest (FileState.present s) = Except.error "JSONDecodeError" := by
    rw [load_manifest, hbad]
  refine ⟨rfl, herr, ?_, ?_⟩
  · intro j h
    rw [herr] at h
    exact Except.noConfusion h
  · rw [main_load_and_diff, herr]
    rfl

theorem c8_malformed_manifest_fatal_witness :
    json_loads "\x7b" = none ∧
    load_manifest (FileState.present "\x7b") = Except.error "JSONDecodeError" ∧
    main_load_and_diff (FileState.present "\x7b") [rec4]
      = Except.error "JSONDecodeError" := by
  have hbad : json_loads "\x7b" = none := rfl
  have h := c8_malformed_manifest_fatal "\x7b" [rec4] hbad
  exact ⟨hbad, h.2.1, h.2.2.2⟩

end CivitaiSync
